import Mathlib

/-!
GroupChat_TCP: the client table, broadcast and session paths of the server.

A shallow embedding of `src/Server/server.c`.

* The globals `acceptedSockets[10]`, `acceptedSocketsCount` become fields of `World`,
  next to a `trace` of the externally visible calls (mutex, `send`, `printf`, `perror`,
  `close`) in program order.
* An array access outside the 10 slots is undefined behaviour in C; here it stops the
  computation with `Stop.outOfBounds`.
* What the environment decides (what `recv` delivers, how each `send` ends, whether
  `malloc` and `pthread_create` succeed, which descriptor `accept` yields) is an explicit
  input of the embedded function.
* A `send` either returns a value or raises `SIGPIPE`: line 36 passes flags `0` and the
  program neither ignores nor handles the signal, so its default action ends the process.
  That ends the run with `Stop.sigpipe`.
* Each C function is run sequentially, one call at a time; interleavings of threads are not
  part of the embedding.
-/

namespace GroupChat

/-! ## Data model -/

/-- One `char`, as its numeric value. -/
abbrev Byte := Nat

/-- The numeric values of the characters of an ASCII literal. -/
def ascii (s : String) : List Byte := s.toList.map Char.toNat

/-- The C string stored at the start of a buffer: the bytes before the first NUL. This is
what `%s` prints and what `strlen` measures. -/
def cstr (buf : List Byte) : List Byte := buf.takeWhile (fun b => b ≠ 0)

/-- Stand-in for `struct sockaddr_in`; the server only copies it. -/
structure sockaddr_in where
  sin_family : Nat
  sin_port : Nat
  sin_addr : Nat
deriving DecidableEq, Repr

/-- Mirror of `struct AcceptedSocket`. The field `name` holds the bytes written into
`name[100]` before the terminating NUL. -/
structure AcceptedSocket where
  socketFD : Int
  address : sockaddr_in
  success : Bool
  name : List Byte
deriving DecidableEq, Repr

/-- How one call of `send` ends. -/
inductive SendOutcome where
  /-- The call returns `ret`: a byte count, or `-1` with `errno` set. -/
  | returned (ret : Int)
  /-- The peer has gone; the kernel raises `SIGPIPE`, which the program does not ignore. -/
  | sigpipe
deriving DecidableEq, Repr

/-- Externally visible calls, in the order the server makes them. -/
inductive Event where
  /-- Call `pthread_mutex_lock(&socketsMutex)`. -/
  | lock
  /-- Call `pthread_mutex_unlock(&socketsMutex)`. -/
  | unlock
  /-- Call `send(fd, message, strlen(message), 0)`, with the way the call ended. -/
  | send (fd : Int) (bytes : List Byte) (outcome : SendOutcome)
  /-- Call `printf` with the rendered text. -/
  | stdout (bytes : List Byte)
  /-- Call `perror` with the given tag. -/
  | perror (tag : List Byte)
  /-- Call `close(fd)`. -/
  | close (fd : Int)
deriving DecidableEq, Repr

/-- Number of slots of `struct AcceptedSocket acceptedSockets[10]`. -/
def CAPACITY : Nat := 10

/-- The backing array: always exactly `CAPACITY` slots. -/
abbrev Table := { l : List AcceptedSocket // l.length = CAPACITY }

/-- Global state of the server plus the trace of calls made so far.
`acceptedSocketsCount` is a C `int` that starts at 0 and is only decremented inside a loop
body guarded by `i < acceptedSocketsCount`, so it never goes negative. -/
structure World where
  acceptedSockets : Table
  acceptedSocketsCount : Nat
  trace : List Event
deriving DecidableEq

/-- Why a run stops without returning. -/
inductive Stop where
  /-- An access `acceptedSockets[index]` with `index` outside the array. -/
  | outOfBounds (index : Nat)
  /-- The process called `exit(status)`. -/
  | exited (status : Nat)
  /-- A `send` raised `SIGPIPE` and the process was terminated; `trace` holds the calls made
  up to and including that `send`. -/
  | sigpipe (trace : List Event)
deriving DecidableEq, Repr

deriving instance DecidableEq for Except

/-- Decisions of the environment. `sendOutcome` and `malloc` may depend on everything that
happened before the call. -/
structure Env where
  /-- How the next `send` ends, given the calls made so far. -/
  sendOutcome : List Event → SendOutcome
  /-- Whether the next `malloc(size)` returns non-NULL, given the calls made so far. -/
  malloc : List Event → Nat → Bool

/-- What a blocking `recv` finds: bytes that arrived (none at all when the peer closed the
connection in an orderly way), or a failure. -/
inductive Incoming where
  | bytes (data : List Byte)
  | error
deriving DecidableEq, Repr

/-- Zero-initialised `struct AcceptedSocket`. -/
def AcceptedSocket.zero : AcceptedSocket :=
  { socketFD := 0, address := ⟨0, 0, 0⟩, success := false, name := [] }

/-- State at program start: static storage is zero-initialised. -/
def World.initial : World :=
  { acceptedSockets := ⟨List.replicate 10 AcceptedSocket.zero, rfl⟩
    acceptedSocketsCount := 0
    trace := [] }

/-- The registered peers: slots `0 .. acceptedSocketsCount - 1`. -/
def World.peers (w : World) : List AcceptedSocket :=
  w.acceptedSockets.val.take w.acceptedSocketsCount

/-! ## Primitive operations -/

/-- Append one call to the trace. -/
def emit (w : World) (e : Event) : World := { w with trace := w.trace ++ [e] }

/-- Read `acceptedSockets[i]`. -/
def readSlot (w : World) (i : Nat) : Except Stop AcceptedSocket :=
  match w.acceptedSockets.val[i]? with
  | some e => .ok e
  | none => .error (.outOfBounds i)

/-- Write `acceptedSockets[i] = v`. -/
def writeSlot (w : World) (i : Nat) (v : AcceptedSocket) : Except Stop World :=
  if i < CAPACITY then
    .ok { w with acceptedSockets := ⟨w.acceptedSockets.val.set i v, by
            rw [List.length_set]; exact w.acceptedSockets.property⟩ }
  else .error (.outOfBounds i)

/-- Result of `recv(fd, buf, len, 0)`: the return value and the bytes stored in `buf`.
At most `len` bytes are taken; zero bytes means orderly shutdown; `-1` is a failure. -/
def recv (inc : Incoming) (len : Nat) : Int × List Byte :=
  match inc with
  | .bytes data => (((data.take len).length : Nat), data.take len)
  | .error => (-1, [])

/-- Model of `send(fd, message, strlen(message), 0)`: the environment picks how the call
ends. A call that returns is recorded with its value; a call that raises `SIGPIPE` ends the
process. -/
def send (env : Env) (fd : Int) (message : List Byte) (w : World) : Except Stop (Int × World) :=
  match env.sendOutcome w.trace with
  | .returned ret => .ok (ret, emit w (.send fd (cstr message) (.returned ret)))
  | .sigpipe => .error (.sigpipe (w.trace ++ [.send fd (cstr message) .sigpipe]))

/-- Model of `snprintf` for formats made of literal characters and `%s` directives (the
only kind the server uses); surplus arguments are ignored, as in C. -/
def snprintf : List Byte → List (List Byte) → List Byte
  | 37 :: 115 :: rest, a :: args => cstr a ++ snprintf rest args
  | c :: rest, args => c :: snprintf rest args
  | [], _ => []

/-! ## The functions of `server.c` -/

/-- Loop of `sendMsgToOthers` (lines 34-38). `n` is the number of iterations left, that is
`acceptedSocketsCount - i`; the body does not change the count. The value returned by
`send` is dropped, as in the source. -/
def sendLoop (env : Env) (message : List Byte) (acceptedSocket : AcceptedSocket) :
    Nat → Nat → World → Except Stop World
  | 0, _, w => .ok w
  | n + 1, i, w =>
    match readSlot w i with
    | .error s => .error s
    | .ok e =>
      if e.socketFD ≠ acceptedSocket.socketFD then
        match send env e.socketFD message w with
        | .error s => .error s
        | .ok r => sendLoop env message acceptedSocket n (i + 1) r.2
      else
        sendLoop env message acceptedSocket n (i + 1) w

/-- Function `sendMsgToOthers` (lines 32-40). -/
def sendMsgToOthers (env : Env) (message : List Byte) (acceptedSocket : AcceptedSocket)
    (w : World) : Except Stop World :=
  let w1 := emit w .lock
  match sendLoop env message acceptedSocket w1.acceptedSocketsCount 0 w1 with
  | .error s => .error s
  | .ok w2 => .ok (emit w2 .unlock)

/-- Function `formatAndSend` (lines 43-52). -/
def formatAndSend (env : Env) (format name message : List Byte)
    (acceptedSocket : AcceptedSocket) (w : World) : Except Stop World :=
  let size := (snprintf format [name, message]).length + 1
  if env.malloc w.trace size then
    let buffer := snprintf format [name, message]
    let w1 := emit w (.stdout (cstr buffer))
    sendMsgToOthers env buffer acceptedSocket w1
  else .ok w

/-- Removal loop of `receiveData` (lines 76-81). `n` is the number of iterations left. The
second component tells whether the loop left through `break`, that is, whether a slot with
the descriptor was found; the C code does not keep this. -/
def removeLoop (clientSocketFD : Int) : Nat → Nat → World → Except Stop (World × Bool)
  | 0, _, w => .ok (w, false)
  | n + 1, i, w =>
    match readSlot w i with
    | .error s => .error s
    | .ok e =>
      if e.socketFD = clientSocketFD then
        let w1 := { w with acceptedSocketsCount := w.acceptedSocketsCount - 1 }
        match readSlot w1 w1.acceptedSocketsCount with
        | .error s => .error s
        | .ok last =>
          match writeSlot w1 i last with
          | .error s => .error s
          | .ok w2 => .ok (w2, true)
      else removeLoop clientSocketFD n (i + 1) w

/-- Locked removal block of `receiveData` (lines 75-82). -/
def removeClient (clientSocketFD : Int) (w : World) : Except Stop (World × Bool) :=
  let w1 := emit w .lock
  match removeLoop clientSocketFD w1.acceptedSocketsCount 0 w1 with
  | .error s => .error s
  | .ok (w2, found) => .ok (emit w2 .unlock, found)

/-- Format of a relayed message, `"%s: %s\n"`. -/
def fmtMessage : List Byte := ascii "%s: %s\n"

/-- Format of the leave text, `"%s has disconnected.\n"`. -/
def fmtLeft : List Byte := ascii "%s has disconnected.\n"

/-- Format of the join text, `"%s has connected\n"`. -/
def fmtJoined : List Byte := ascii "%s has connected\n"

/-- How one pass through the body of `while (true)` in `receiveData` ends. -/
inductive LoopExit where
  | again
  | brk
deriving DecidableEq, Repr

/-- One pass through the body of the `while (true)` loop of `receiveData` (lines 60-70),
given what `recv` finds. -/
def receiveIteration (env : Env) (acceptedSocket : AcceptedSocket) (inc : Incoming)
    (w : World) : Except Stop (World × LoopExit) :=
  let r := recv inc 1023
  let amountReceived := r.1
  let buffer := r.2
  if amountReceived > 0 then
    match formatAndSend env fmtMessage acceptedSocket.name buffer acceptedSocket w with
    | .error s => .error s
    | .ok w1 => .ok (w1, .again)
  else if amountReceived = 0 then
    match formatAndSend env fmtLeft acceptedSocket.name [] acceptedSocket w with
    | .error s => .error s
    | .ok w1 => .ok (w1, .brk)
  else .ok (emit w (.perror (ascii "recv failed")), .brk)

/-- The `while (true)` loop of `receiveData` over what successive `recv` calls find. The
flag is `false` when the inputs ran out before a `break`: the thread is then still blocked
in `recv`. -/
def receiveLoop (env : Env) (acceptedSocket : AcceptedSocket) :
    List Incoming → World → Except Stop (World × Bool)
  | [], w => .ok (w, false)
  | inc :: rest, w =>
    match receiveIteration env acceptedSocket inc w with
    | .error s => .error s
    | .ok (w1, .again) => receiveLoop env acceptedSocket rest w1
    | .ok (w1, .brk) => .ok (w1, true)

/-- Function `receiveData` (lines 55-85). Returns `none` for the world when the thread has
not left the read loop on the given inputs. -/
def receiveData (env : Env) (acceptedSocket : AcceptedSocket) (incoming : List Incoming)
    (w : World) : Except Stop (Option World) :=
  let clientSocketFD := acceptedSocket.socketFD
  match receiveLoop env acceptedSocket incoming w with
  | .error s => .error s
  | .ok (_, false) => .ok none
  | .ok (w1, true) =>
    let w2 := emit w1 (.close clientSocketFD)
    match removeClient clientSocketFD w2 with
    | .error s => .error s
    | .ok (w3, _) => .ok (some w3)

/-- What the environment supplies for one pass of the accept loop. -/
structure Arrival where
  /-- Value returned by `accept`. -/
  clientSocketFD : Int
  /-- Address filled in by `accept`. -/
  clientAddress : sockaddr_in
  /-- What the `recv` of the name finds. -/
  nameData : Incoming
  /-- Whether `pthread_create` succeeds. -/
  threadOk : Bool
deriving DecidableEq, Repr

/-- Size passed to `malloc` for one `struct AcceptedSocket` (4 + 16 + 1 + 100, padded). -/
def sizeofAcceptedSocket : Nat := 124

/-- Function `acceptConnection` (lines 88-114). -/
def acceptConnection (env : Env) (a : Arrival) (w : World) :
    Except Stop (AcceptedSocket × World) :=
  if env.malloc w.trace sizeofAcceptedSocket then
    let r := recv a.nameData 99
    let nameLength := r.1
    let s0 : AcceptedSocket :=
      { socketFD := a.clientSocketFD, address := a.clientAddress,
        success := decide (a.clientSocketFD ≥ 0), name := r.2 }
    if nameLength > 0 then
      match formatAndSend env fmtJoined s0.name [] s0 w with
      | .error s => .error s
      | .ok w1 => .ok (s0, w1)
    else
      .ok ({ s0 with name := ascii "Unknown" },
           emit w (.stdout (ascii "Failed receiving name.\n")))
  else .error (.exited 1)

/-- Function `createClientThread` (lines 117-126); the new thread itself runs
`receiveData` and is embedded separately. -/
def createClientThread (threadOk : Bool) (pSocket : AcceptedSocket) (w : World) : World :=
  if threadOk then w
  else emit (emit w (.perror (ascii "Failed to create thread"))) (.close pSocket.socketFD)

/-- Registration block of `startAcceptingConnections` (lines 134-136). -/
def registerClient (clientSocket : AcceptedSocket) (w : World) : Except Stop World :=
  let w1 := emit w .lock
  match writeSlot w1 w1.acceptedSocketsCount clientSocket with
  | .error s => .error s
  | .ok w2 =>
    .ok (emit { w2 with acceptedSocketsCount := w2.acceptedSocketsCount + 1 } .unlock)

/-- One pass through the body of the loop of `startAcceptingConnections` (lines 131-141). -/
def acceptIteration (env : Env) (a : Arrival) (w : World) : Except Stop World :=
  match acceptConnection env a w with
  | .error s => .error s
  | .ok (clientSocket, w1) =>
    if clientSocket.success then
      match registerClient clientSocket w1 with
      | .error s => .error s
      | .ok w2 => .ok (createClientThread a.threadOk clientSocket w2)
    else .ok (emit w1 (.perror (ascii "Failed to accept connection")))

/-- Function `startAcceptingConnections` (lines 129-143) over the connections that arrive. -/
def startAcceptingConnections (env : Env) : List Arrival → World → Except Stop World
  | [], w => .ok w
  | a :: rest, w =>
    match acceptIteration env a w with
    | .error s => .error s
    | .ok w1 => startAcceptingConnections env rest w1

/-! ## Reading a trace -/

/-- The deliveries attempted in a stretch of trace: descriptor and text of each `send`. -/
def sendsOf : List Event → List (Int × List Byte)
  | [] => []
  | .send fd bytes _ :: rest => (fd, bytes) :: sendsOf rest
  | _ :: rest => sendsOf rest

/-- Whether no `send` happens while `socketsMutex` is held; `held` is the state of the
mutex at the start of the stretch. -/
def noSendWhileLocked : Bool → List Event → Bool
  | _, [] => true
  | _, .lock :: rest => noSendWhileLocked true rest
  | _, .unlock :: rest => noSendWhileLocked false rest
  | held, .send _ _ _ :: rest => !held && noSendWhileLocked held rest
  | held, _ :: rest => noSendWhileLocked held rest

/-- Whether every `send` happens while `socketsMutex` is held. -/
def allSendsWhileLocked : Bool → List Event → Bool
  | _, [] => true
  | _, .lock :: rest => allSendsWhileLocked true rest
  | _, .unlock :: rest => allSendsWhileLocked false rest
  | held, .send _ _ _ :: rest => held && allSendsWhileLocked held rest
  | held, _ :: rest => allSendsWhileLocked held rest

/-! ## Reading a table -/

/-- Whether an event is a `send`. -/
def Event.isSend : Event → Bool
  | .send _ _ _ => true
  | _ => false

/-- The deliveries a broadcast of `message` on behalf of descriptor `fd` should attempt
over the peers `ps`: one per peer with another descriptor, in table order. -/
def recipients (message : List Byte) (fd : Int) (ps : List AcceptedSocket) :
    List (Int × List Byte) :=
  (ps.filter (fun e => decide (e.socketFD ≠ fd))).map (fun e => (e.socketFD, cstr message))

/-- The deliveries a session with display buffer `name` and descriptor `fd` should attempt
for a sequence of reads: each delivery of bytes is relayed, in the order received. -/
def relays (name : List Byte) (fd : Int) (ps : List AcceptedSocket) :
    List Incoming → List (Int × List Byte)
  | [] => []
  | .bytes t :: rest =>
    recipients (snprintf fmtMessage [name, t.take 1023]) fd ps ++ relays name fd ps rest
  | .error :: rest => relays name fd ps rest

/-- The descriptors of the registered peers. -/
def World.fds (w : World) : List Int := w.peers.map (fun e => e.socketFD)

/-! ## Sample data -/

/-- A sample environment: every `send` succeeds, memory never runs out. -/
def envOk : Env := { sendOutcome := fun _ => .returned 1, malloc := fun _ _ => true }

/-- Sample peer. -/
def alice : AcceptedSocket :=
  { socketFD := 4, address := ⟨2, 50001, 2130706433⟩, success := true, name := ascii "Alice" }

/-- Sample peer. -/
def bob : AcceptedSocket :=
  { socketFD := 5, address := ⟨2, 50002, 2130706433⟩, success := true, name := ascii "Bob" }

/-- Sample peer. -/
def carol : AcceptedSocket :=
  { socketFD := 6, address := ⟨2, 50003, 2130706433⟩, success := true, name := ascii "Carol" }

/-- A world whose first slots hold the given peers (at most 10 are stored). -/
def worldOf (ps : List AcceptedSocket) : World :=
  { acceptedSockets :=
      ⟨(ps ++ List.replicate 10 AcceptedSocket.zero).take 10, by
        simp [CAPACITY, List.length_take]⟩
    acceptedSocketsCount := ps.length
    trace := [] }

/-- Sample peer. -/
def dave : AcceptedSocket :=
  { socketFD := 7, address := ⟨2, 50004, 2130706433⟩, success := true, name := ascii "Dave" }

/-- A sample environment in which the first `send` of a run returns `-1` and later ones
succeed. -/
def envFirstSendFails : Env :=
  { sendOutcome := fun tr => if sendsOf tr = [] then .returned (-1) else .returned 1,
    malloc := fun _ _ => true }

/-- A sample environment in which the first `send` of a run raises `SIGPIPE`. -/
def envFirstSendSigpipe : Env :=
  { sendOutcome := fun tr => if sendsOf tr = [] then .sigpipe else .returned 1,
    malloc := fun _ _ => true }

/-- A sample environment in which every `malloc` fails. -/
def envNoMemory : Env := { sendOutcome := fun _ => .returned 1, malloc := fun _ _ => false }

/-- A sample environment in which only the `malloc` of a `struct AcceptedSocket` succeeds. -/
def envNoBuffer : Env :=
  { sendOutcome := fun _ => .returned 1,
    malloc := fun _ size => decide (size = sizeofAcceptedSocket) }

/-- The world after Alice's session relayed `"hi"` to Bob and Carol. -/
def afterHi : World :=
  { acceptedSockets := (worldOf [alice, bob, carol]).acceptedSockets
    acceptedSocketsCount := 3
    trace := [.stdout (ascii "Alice: hi\n"), .lock,
      .send 5 (ascii "Alice: hi\n") (.returned 1),
      .send 6 (ascii "Alice: hi\n") (.returned 1), .unlock] }

/-- The ten connections that fill the table in the runs below: descriptors 4 to 13. -/
def tenArrivals : List Arrival :=
  (List.range 10).map
    (fun (i : Nat) => ⟨4 + Int.ofNat i, ⟨2, 50001 + i, 2130706433⟩, .bytes (ascii "A"), true⟩)

/-! ## Lemmas on traces -/

theorem sendsOf_append (a b : List Event) : sendsOf (a ++ b) = sendsOf a ++ sendsOf b := by
  induction a with
  | nil => rfl
  | cons e a ih => cases e <;> simp [sendsOf, ih]

theorem allSendsWhileLocked_sends (evs rest : List Event)
    (h : ∀ e ∈ evs, e.isSend = true) :
    allSendsWhileLocked true (evs ++ rest) = allSendsWhileLocked true rest := by
  induction evs with
  | nil => rfl
  | cons e evs ih =>
    have he := h e (List.mem_cons_self _ _)
    have ih' := ih (fun x hx => h x (List.mem_cons_of_mem _ hx))
    cases e <;> simp [Event.isSend] at he
    simp [allSendsWhileLocked, ih']

/-! ## Lemmas on C strings and `snprintf` -/

theorem cstr_no_nul (buf : List Byte) : ∀ b ∈ cstr buf, b ≠ 0 := by
  intro b hb
  have := List.mem_takeWhile_imp hb
  simpa using this

theorem cstr_of_no_nul (t : List Byte) (h : ∀ b ∈ t, b ≠ 0) : cstr t = t := by
  unfold cstr
  rw [List.takeWhile_eq_self_iff]
  intro b hb
  simpa using h b hb

theorem cstr_cstr (buf : List Byte) : cstr (cstr buf) = cstr buf :=
  cstr_of_no_nul _ (cstr_no_nul buf)

theorem snprintf_fmtMessage (name message : List Byte) :
    snprintf fmtMessage [name, message]
      = cstr name ++ ascii ": " ++ cstr message ++ ascii "\n" := by
  have h : fmtMessage = [37, 115, 58, 32, 37, 115, 10] := by decide
  have h1 : ascii ": " = [58, 32] := by decide
  have h2 : ascii "\n" = [10] := by decide
  rw [h, h1, h2]
  simp [snprintf]

theorem snprintf_fmtLeft (name message : List Byte) :
    snprintf fmtLeft [name, message] = cstr name ++ ascii " has disconnected.\n" := by
  have h : fmtLeft = 37 :: 115 :: ascii " has disconnected.\n" := by decide
  have h1 : ascii " has disconnected.\n"
      = [32, 104, 97, 115, 32, 100, 105, 115, 99, 111, 110, 110, 101, 99, 116, 101, 100,
         46, 10] := by decide
  rw [h, h1]
  simp [snprintf]

theorem snprintf_fmtJoined (name message : List Byte) :
    snprintf fmtJoined [name, message] = cstr name ++ ascii " has connected\n" := by
  have h : fmtJoined = 37 :: 115 :: ascii " has connected\n" := by decide
  have h1 : ascii " has connected\n"
      = [32, 104, 97, 115, 32, 99, 111, 110, 110, 101, 99, 116, 101, 100, 10] := by decide
  rw [h, h1]
  simp [snprintf]

theorem cstr_append_of_no_nul (a b : List Byte) (ha : ∀ x ∈ a, x ≠ 0) (hb : ∀ x ∈ b, x ≠ 0) :
    cstr (a ++ b) = a ++ b := by
  apply cstr_of_no_nul
  intro x hx
  rcases List.mem_append.1 hx with h | h
  · exact ha x h
  · exact hb x h

theorem cstr_message_text (name message : List Byte) :
    cstr (cstr name ++ ascii ": " ++ cstr message ++ ascii "\n")
      = cstr name ++ ascii ": " ++ cstr message ++ ascii "\n" := by
  apply cstr_of_no_nul
  have h1 : ascii ": " = [58, 32] := by decide
  have h2 : ascii "\n" = [10] := by decide
  intro x hx
  rw [h1, h2] at hx
  simp only [List.mem_append, List.mem_cons, List.mem_singleton, List.not_mem_nil,
    or_false] at hx
  rcases hx with ((h | h) | h) | h
  · exact cstr_no_nul _ x h
  · rcases h with h | h <;> (rw [h]; decide)
  · exact cstr_no_nul _ x h
  · rw [h]; decide

theorem cstr_left_text (name : List Byte) :
    cstr (cstr name ++ ascii " has disconnected.\n")
      = cstr name ++ ascii " has disconnected.\n" := by
  apply cstr_append_of_no_nul _ _ (cstr_no_nul name)
  decide

theorem cstr_joined_text (name : List Byte) :
    cstr (cstr name ++ ascii " has connected\n") = cstr name ++ ascii " has connected\n" := by
  apply cstr_append_of_no_nul _ _ (cstr_no_nul name)
  decide

/-! ## The broadcast loop -/

/-- A read of `acceptedSockets[i]` stops exactly when `i` is outside the array. -/
theorem readSlot_error_iff (w : World) (i : Nat) :
    readSlot w i = .error (.outOfBounds i) ↔ CAPACITY ≤ i := by
  rcases Nat.lt_or_ge i w.acceptedSockets.val.length with h | h
  · have hi : i < CAPACITY := by rw [← w.acceptedSockets.property]; exact h
    simp [readSlot, List.getElem?_eq_getElem h, Nat.not_le.2 hi]
  · have hi : CAPACITY ≤ i := by rw [← w.acceptedSockets.property]; exact h
    simp [readSlot, List.getElem?_eq_none h, hi]

/-- A write of `acceptedSockets[i]` stops exactly when `i` is outside the array. -/
theorem writeSlot_error_iff (w : World) (i : Nat) (v : AcceptedSocket) :
    writeSlot w i v = .error (.outOfBounds i) ↔ CAPACITY ≤ i := by
  by_cases h : i < CAPACITY
  · simp [writeSlot, h]
  · simp [writeSlot, h, Nat.le_of_not_lt h]

theorem readSlot_of_lt (w : World) (i : Nat) (h : i < CAPACITY) :
    ∃ e, w.acceptedSockets.val[i]? = some e ∧ readSlot w i = .ok e := by
  have hl : i < w.acceptedSockets.val.length := by rw [w.acceptedSockets.property]; exact h
  refine ⟨w.acceptedSockets.val[i], List.getElem?_eq_getElem hl, ?_⟩
  simp [readSlot, List.getElem?_eq_getElem hl]

theorem slots_drop_take (l : List AcceptedSocket) (i n : Nat) (e : AcceptedSocket)
    (h : l[i]? = some e) : (l.drop i).take (n + 1) = e :: (l.drop (i + 1)).take n := by
  have hi : i < l.length := by
    rcases Nat.lt_or_ge i l.length with h1 | h1
    · exact h1
    · rw [List.getElem?_eq_none h1] at h; cases h
  have he : l[i] = e := by
    rw [List.getElem?_eq_getElem hi] at h; exact Option.some.inj h
  rw [List.drop_eq_getElem_cons hi, he]
  simp

/-- The loop of `sendMsgToOthers`, started at index `i` with `n` iterations left inside
the array. Either it returns, having left table and count alone and appended only `send`
calls, one per slot in `i .. i+n-1` whose descriptor differs from the sender's; or a `send`
raises `SIGPIPE` and the process ends after a non-empty initial stretch of those calls. It
never stops on an index outside the array. -/
theorem sendLoop_cases (env : Env) (message : List Byte) (s : AcceptedSocket) :
    ∀ (n i : Nat) (w : World), i + n ≤ CAPACITY →
      (∃ w' evs, sendLoop env message s n i w = .ok w' ∧
        w'.acceptedSockets = w.acceptedSockets ∧
        w'.acceptedSocketsCount = w.acceptedSocketsCount ∧
        w'.trace = w.trace ++ evs ∧
        (∀ e ∈ evs, e.isSend = true) ∧
        sendsOf evs
          = recipients message s.socketFD ((w.acceptedSockets.val.drop i).take n)) ∨
      (∃ evs k, sendLoop env message s n i w = .error (.sigpipe (w.trace ++ evs)) ∧
        (∀ e ∈ evs, e.isSend = true) ∧
        sendsOf evs
          = (recipients message s.socketFD
              ((w.acceptedSockets.val.drop i).take n)).take (k + 1) ∧
        ∃ tr, env.sendOutcome tr = .sigpipe) := by
  intro n
  induction n with
  | zero =>
    intro i w _
    exact Or.inl ⟨w, [], rfl, rfl, rfl, by simp, by simp, by simp [sendsOf, recipients]⟩
  | succ n ih =>
    intro i w h
    obtain ⟨e, he, hr⟩ := readSlot_of_lt w i (by omega)
    by_cases hfd : e.socketFD ≠ s.socketFD
    · have hrec : recipients message s.socketFD ((w.acceptedSockets.val.drop i).take (n + 1))
          = (e.socketFD, cstr message)
            :: recipients message s.socketFD ((w.acceptedSockets.val.drop (i + 1)).take n) := by
        rw [slots_drop_take _ i n e he]
        simp [recipients, List.filter_cons, hfd]
      cases hout : env.sendOutcome w.trace with
      | returned ret =>
        have hsend : send env e.socketFD message w
            = .ok (ret, emit w (.send e.socketFD (cstr message) (.returned ret))) := by
          simp [send, hout]
        have hstep : sendLoop env message s (n + 1) i w
            = sendLoop env message s n (i + 1)
                (emit w (.send e.socketFD (cstr message) (.returned ret))) := by
          simp only [sendLoop, hr]
          rw [if_pos hfd, hsend]
        rcases ih (i + 1) (emit w (.send e.socketFD (cstr message) (.returned ret)))
          (by omega) with ⟨w', evs, h1, h2, h3, h4, h5, h6⟩ | ⟨evs, k, h1, h5, h6, h7⟩
        · refine Or.inl ⟨w', .send e.socketFD (cstr message) (.returned ret) :: evs,
            ?_, ?_, ?_, ?_, ?_, ?_⟩
          · rw [hstep]; exact h1
          · rw [h2]; rfl
          · rw [h3]; rfl
          · rw [h4]; simp [emit]
          · intro x hx
            rcases List.mem_cons.1 hx with hx | hx
            · rw [hx]; rfl
            · exact h5 x hx
          · rw [hrec]
            simp only [sendsOf, h6]
            rfl
        · refine Or.inr ⟨.send e.socketFD (cstr message) (.returned ret) :: evs, k + 1,
            ?_, ?_, ?_, h7⟩
          · rw [hstep, h1]; simp [emit]
          · intro x hx
            rcases List.mem_cons.1 hx with hx | hx
            · rw [hx]; rfl
            · exact h5 x hx
          · rw [hrec]
            simp only [sendsOf, h6, List.take_succ_cons]
            rfl
      | sigpipe =>
        refine Or.inr ⟨[.send e.socketFD (cstr message) .sigpipe], 0, ?_, ?_, ?_, w.trace, hout⟩
        · simp only [sendLoop, hr]
          rw [if_pos hfd]
          simp [send, hout]
        · intro x hx
          rw [List.mem_singleton.1 hx]; rfl
        · rw [hrec]
          simp [sendsOf]
    · have hfd' : e.socketFD = s.socketFD := by simpa using hfd
      have hrec : recipients message s.socketFD ((w.acceptedSockets.val.drop i).take (n + 1))
          = recipients message s.socketFD ((w.acceptedSockets.val.drop (i + 1)).take n) := by
        rw [slots_drop_take _ i n e he]
        simp [recipients, List.filter_cons, hfd']
      have hstep : sendLoop env message s (n + 1) i w
          = sendLoop env message s n (i + 1) w := by
        simp only [sendLoop, hr]
        rw [if_neg hfd]
      rw [hstep, hrec]
      exact ih (i + 1) w (by omega)

/-- Function `sendMsgToOthers` on a table whose count fits the array. Either it returns:
the table is untouched and the calls made are `lock`, one `send` per other peer, `unlock`.
Or a `send` raises `SIGPIPE`: the process ends after `lock` and a non-empty initial stretch
of those `send` calls, with the mutex still held. -/
theorem sendMsgToOthers_cases (env : Env) (message : List Byte) (s : AcceptedSocket)
    (w : World) (hcap : w.acceptedSocketsCount ≤ CAPACITY) :
    (∃ w' evs, sendMsgToOthers env message s w = .ok w' ∧
      w'.acceptedSockets = w.acceptedSockets ∧
      w'.acceptedSocketsCount = w.acceptedSocketsCount ∧
      w'.trace = w.trace ++ [Event.lock] ++ evs ++ [Event.unlock] ∧
      (∀ e ∈ evs, e.isSend = true) ∧
      sendsOf evs = recipients message s.socketFD w.peers) ∨
    (∃ evs k, sendMsgToOthers env message s w
        = .error (.sigpipe (w.trace ++ [Event.lock] ++ evs)) ∧
      (∀ e ∈ evs, e.isSend = true) ∧
      sendsOf evs = (recipients message s.socketFD w.peers).take (k + 1) ∧
      ∃ tr, env.sendOutcome tr = .sigpipe) := by
  have hc : (emit w .lock).acceptedSocketsCount = w.acceptedSocketsCount := rfl
  rcases sendLoop_cases env message s w.acceptedSocketsCount 0 (emit w .lock)
    (by simpa using hcap) with ⟨w2, evs, h1, h2, h3, h4, h5, h6⟩ | ⟨evs, k, h1, h5, h6, h7⟩
  · refine Or.inl ⟨emit w2 .unlock, evs, ?_, ?_, ?_, ?_, h5, ?_⟩
    · simp only [sendMsgToOthers]
      rw [hc, h1]
    · simpa [emit] using h2
    · simpa [emit] using h3
    · simp [emit, h4]
    · rw [h6]; simp [World.peers, emit]
  · refine Or.inr ⟨evs, k, ?_, h5, ?_, h7⟩
    · simp only [sendMsgToOthers]
      rw [hc, h1]
      simp [emit]
    · rw [h6]; simp [World.peers, emit]

/-- Function `sendMsgToOthers` returns on every table whose count fits the array when no
`send` raises `SIGPIPE`. -/
theorem sendMsgToOthers_spec (env : Env) (message : List Byte) (s : AcceptedSocket)
    (w : World) (hcap : w.acceptedSocketsCount ≤ CAPACITY)
    (hret : ∀ tr, env.sendOutcome tr ≠ .sigpipe) :
    ∃ w' evs, sendMsgToOthers env message s w = .ok w' ∧
      w'.acceptedSockets = w.acceptedSockets ∧
      w'.acceptedSocketsCount = w.acceptedSocketsCount ∧
      w'.trace = w.trace ++ [Event.lock] ++ evs ++ [Event.unlock] ∧
      (∀ e ∈ evs, e.isSend = true) ∧
      sendsOf evs = recipients message s.socketFD w.peers := by
  rcases sendMsgToOthers_cases env message s w hcap with h | ⟨_, _, _, _, _, tr, htr⟩
  · exact h
  · exact absurd htr (hret tr)

/-- Function `formatAndSend` when its `malloc` succeeds and no `send` raises `SIGPIPE`: it
returns, leaves the table alone, prints the rendered text and broadcasts it. -/
theorem formatAndSend_spec (env : Env) (format name message : List Byte)
    (s : AcceptedSocket) (w : World) (hcap : w.acceptedSocketsCount ≤ CAPACITY)
    (hmem : env.malloc w.trace ((snprintf format [name, message]).length + 1) = true)
    (hret : ∀ tr, env.sendOutcome tr ≠ .sigpipe) :
    ∃ w' evs, formatAndSend env format name message s w = .ok w' ∧
      w'.acceptedSockets = w.acceptedSockets ∧
      w'.acceptedSocketsCount = w.acceptedSocketsCount ∧
      w'.trace = w.trace ++ [Event.stdout (cstr (snprintf format [name, message])),
        Event.lock] ++ evs ++ [Event.unlock] ∧
      (∀ e ∈ evs, e.isSend = true) ∧
      sendsOf evs = recipients (snprintf format [name, message]) s.socketFD w.peers := by
  obtain ⟨w', evs, h1, h2, h3, h4, h5, h6⟩ :=
    sendMsgToOthers_spec env (snprintf format [name, message]) s
      (emit w (.stdout (cstr (snprintf format [name, message]))))
      (by simpa [emit] using hcap) hret
  refine ⟨w', evs, ?_, ?_, ?_, ?_, h5, ?_⟩
  · simp only [formatAndSend]; rw [if_pos hmem]; exact h1
  · simpa [emit] using h2
  · simpa [emit] using h3
  · rw [h4]; simp [emit]
  · rw [h6]; simp [World.peers, emit]

/-! ## The removal loop -/

theorem slots_head_of_drop_take (l : List AcceptedSocket) (i n : Nat) (x : AcceptedSocket)
    (rest : List AcceptedSocket) (h : (l.drop i).take (n + 1) = x :: rest) :
    l[i]? = some x ∧ (l.drop (i + 1)).take n = rest := by
  rcases Nat.lt_or_ge i l.length with hi | hi
  · have h1 := slots_drop_take l i n l[i] (List.getElem?_eq_getElem hi)
    rw [h1] at h
    injection h with ha hb
    exact ⟨by rw [List.getElem?_eq_getElem hi, ha], hb⟩
  · rw [List.drop_eq_nil_of_le hi] at h
    simp at h

/-- A scan that meets no slot with the descriptor runs to the end, changes nothing and
leaves through the loop condition, not through `break`. -/
theorem removeLoop_absent (fd : Int) :
    ∀ (n i : Nat) (w : World), i + n ≤ CAPACITY →
      (∀ e ∈ (w.acceptedSockets.val.drop i).take n, e.socketFD ≠ fd) →
      removeLoop fd n i w = .ok (w, false) := by
  intro n
  induction n with
  | zero => intro i w _ _; rfl
  | succ n ih =>
    intro i w h habs
    obtain ⟨e, he, hr⟩ := readSlot_of_lt w i (by omega)
    rw [slots_drop_take _ i n e he] at habs
    have hne : e.socketFD ≠ fd := habs e (List.mem_cons_self _ _)
    simp only [removeLoop, hr]
    rw [if_neg hne]
    exact ih (i + 1) w (by omega) (fun x hx => habs x (List.mem_cons_of_mem _ hx))

/-- A scan whose remaining slots are `pre ++ e :: post`, with `e` the first one carrying
the descriptor, overwrites that slot with the last registered slot, decrements the count and
leaves through `break`. -/
theorem removeLoop_present (fd : Int) (e last : AcceptedSocket)
    (post : List AcceptedSocket) :
    ∀ (pre : List AcceptedSocket) (n i : Nat) (w : World), i + n ≤ CAPACITY →
      (w.acceptedSockets.val.drop i).take n = pre ++ e :: post →
      (∀ x ∈ pre, x.socketFD ≠ fd) → e.socketFD = fd →
      w.acceptedSockets.val[w.acceptedSocketsCount - 1]? = some last →
      ∃ w', removeLoop fd n i w = .ok (w', true) ∧
        w'.acceptedSockets.val = w.acceptedSockets.val.set (i + pre.length) last ∧
        w'.acceptedSocketsCount = w.acceptedSocketsCount - 1 ∧
        w'.trace = w.trace := by
  intro pre
  induction pre with
  | nil =>
    intro n i w h hsplit _ hfd hlast
    cases n with
    | zero => simp at hsplit
    | succ n =>
      obtain ⟨he, _⟩ := slots_head_of_drop_take _ i n e post (by simpa using hsplit)
      have hi : i < CAPACITY := by omega
      have hr : readSlot w i = .ok e := by simp [readSlot, he]
      have hr2 : readSlot { w with acceptedSocketsCount := w.acceptedSocketsCount - 1 }
          (w.acceptedSocketsCount - 1) = .ok last := by simp [readSlot, hlast]
      refine ⟨{ w with
          acceptedSocketsCount := w.acceptedSocketsCount - 1
          acceptedSockets := ⟨w.acceptedSockets.val.set i last, by
            rw [List.length_set]; exact w.acceptedSockets.property⟩ }, ?_, ?_, rfl, rfl⟩
      · simp only [removeLoop, hr]
        rw [if_pos hfd]
        simp only [hr2, writeSlot]
        rw [if_pos hi]
      · simp
  | cons x pre ih =>
    intro n i w h hsplit hpre hfd hlast
    cases n with
    | zero => simp at hsplit
    | succ n =>
      obtain ⟨hx, hrest⟩ :=
        slots_head_of_drop_take _ i n x (pre ++ e :: post) (by simpa using hsplit)
      have hr : readSlot w i = .ok x := by simp [readSlot, hx]
      have hne : x.socketFD ≠ fd := hpre x (List.mem_cons_self _ _)
      obtain ⟨w', h1, h2, h3, h4⟩ := ih n (i + 1) w (by omega) hrest
        (fun y hy => hpre y (List.mem_cons_of_mem _ hy)) hfd hlast
      refine ⟨w', ?_, ?_, h3, h4⟩
      · simp only [removeLoop, hr]
        rw [if_neg hne]
        exact h1
      · rw [h2]
        have : i + 1 + pre.length = i + (x :: pre).length := by simp; omega
        rw [this]

/-- Swap-with-last on a list: overwriting the slot after `pre` with the last of the first
`c` slots and keeping `c - 1` slots yields the other slots, up to order. -/
theorem swap_remove_perm (pre post tail : List AcceptedSocket) (e last : AcceptedSocket)
    (hlast : (pre ++ e :: post ++ tail)[pre.length + post.length]? = some last) :
    (((pre ++ e :: post ++ tail).set pre.length last).take (pre.length + post.length)).Perm
      (pre ++ post) := by
  have hset : (pre ++ e :: post ++ tail).set pre.length last = pre ++ last :: (post ++ tail) := by
    simp [List.append_assoc]
  rw [hset]
  rw [List.take_append_eq_append_take]
  simp only [List.take_of_length_le (Nat.le_add_right _ _), Nat.add_sub_cancel_left]
  apply List.Perm.append_left
  rcases List.eq_nil_or_concat post with hp | ⟨post', z, hp⟩
  · subst hp; simp
  · rw [List.concat_eq_append] at hp
    subst hp
    have h1 : (pre ++ e :: (post' ++ [z]) ++ tail)[pre.length + (post' ++ [z]).length]?
        = some z := by
      rw [List.append_assoc, List.getElem?_append_right (Nat.le_add_right _ _),
        Nat.add_sub_cancel_left, List.length_append, List.length_singleton,
        List.cons_append, List.getElem?_cons_succ, List.append_assoc,
        List.getElem?_append_right (Nat.le_refl _), Nat.sub_self]
      simp
    rw [h1] at hlast
    have hz : z = last := Option.some.inj hlast
    subst hz
    rw [List.length_append, List.length_singleton, List.take_succ_cons,
      List.append_assoc, List.take_append_eq_append_take,
      List.take_of_length_le (Nat.le_refl _), Nat.sub_self, List.take_zero, List.append_nil]
    exact (List.perm_append_singleton z post').symm

theorem peers_length (w : World) (hcap : w.acceptedSocketsCount ≤ CAPACITY) :
    w.peers.length = w.acceptedSocketsCount := by
  simp only [World.peers, List.length_take, w.acceptedSockets.property]
  exact Nat.min_eq_left hcap

theorem split_of_distinct (ps : List AcceptedSocket) (fd : Int)
    (hd : (ps.map (fun e => e.socketFD)).Nodup) (hreg : fd ∈ ps.map (fun e => e.socketFD)) :
    ∃ pre e post, ps = pre ++ e :: post ∧ e.socketFD = fd ∧
      (∀ x ∈ pre, x.socketFD ≠ fd) ∧ (∀ x ∈ post, x.socketFD ≠ fd) := by
  obtain ⟨e, he, hfd⟩ := List.mem_map.1 hreg
  obtain ⟨pre, post, hsplit⟩ := List.append_of_mem he
  subst hsplit
  refine ⟨pre, e, post, rfl, hfd, ?_, ?_⟩
  · intro x hx hxfd
    rw [List.map_append, List.map_cons] at hd
    have hdis := (List.nodup_append.1 hd).2.2
    exact hdis (List.mem_map.2 ⟨x, hx, hxfd⟩) (by simp [hfd])
  · intro x hx hxfd
    rw [List.map_append, List.map_cons] at hd
    have hcons := (List.nodup_append.1 hd).2.1
    have hnot := (List.nodup_cons.1 hcons).1
    exact hnot (List.mem_map.2 ⟨x, hx, by rw [hxfd, hfd]⟩)

theorem filter_split (pre post : List AcceptedSocket) (e : AcceptedSocket) (fd : Int)
    (hfd : e.socketFD = fd) (hpre : ∀ x ∈ pre, x.socketFD ≠ fd)
    (hpost : ∀ x ∈ post, x.socketFD ≠ fd) :
    (pre ++ e :: post).filter (fun x => decide (x.socketFD ≠ fd)) = pre ++ post := by
  rw [List.filter_append, List.filter_cons]
  have h1 : pre.filter (fun x => decide (x.socketFD ≠ fd)) = pre :=
    List.filter_eq_self.2 (fun x hx => by simpa using hpre x hx)
  have h2 : post.filter (fun x => decide (x.socketFD ≠ fd)) = post :=
    List.filter_eq_self.2 (fun x hx => by simpa using hpost x hx)
  rw [h1, h2]
  simp [hfd]

/-- The locked removal block on a table with pairwise distinct descriptors that holds
`fd`: it returns, reports the hit, lowers the count by one and keeps exactly the other
peers (up to order). -/
theorem removeClient_registered (fd : Int) (w : World)
    (hcap : w.acceptedSocketsCount ≤ CAPACITY) (hd : w.fds.Nodup) (hreg : fd ∈ w.fds) :
    ∃ w', removeClient fd w = .ok (w', true) ∧
      w'.acceptedSocketsCount + 1 = w.acceptedSocketsCount ∧
      w'.peers.Perm (w.peers.filter (fun x => decide (x.socketFD ≠ fd))) ∧
      w'.trace = w.trace ++ [Event.lock, Event.unlock] := by
  obtain ⟨pre, e, post, hsplit, hfd, hpre, hpost⟩ := split_of_distinct w.peers fd hd hreg
  have hlen := peers_length w hcap
  have hc : w.acceptedSocketsCount = pre.length + post.length + 1 := by
    rw [← hlen, hsplit]; simp; omega
  have hl : w.acceptedSockets.val
      = pre ++ e :: post ++ w.acceptedSockets.val.drop w.acceptedSocketsCount := by
    rw [← hsplit]; exact (List.take_append_drop _ _).symm
  obtain ⟨last, hlast, _⟩ := readSlot_of_lt w (w.acceptedSocketsCount - 1) (by omega)
  obtain ⟨w2, h1, h2, h3, h4⟩ := removeLoop_present fd e last post pre
    w.acceptedSocketsCount 0 (emit w .lock) (by simpa using hcap)
    (by simpa [emit, World.peers] using hsplit) hpre hfd (by simpa [emit] using hlast)
  refine ⟨emit w2 .unlock, ?_, ?_, ?_, ?_⟩
  · simp only [removeClient]
    have : (emit w .lock).acceptedSocketsCount = w.acceptedSocketsCount := rfl
    rw [this, h1]
  · simp only [emit, h3]; omega
  · rw [hsplit, filter_split pre post e fd hfd hpre hpost]
    have hp : (emit w2 .unlock).peers
        = (w.acceptedSockets.val.set pre.length last).take (pre.length + post.length) := by
      simp only [World.peers, emit, h2, h3, Nat.zero_add]
      congr 1
      omega
    rw [hp, hl]
    apply swap_remove_perm
    rw [← hl]
    have : pre.length + post.length = w.acceptedSocketsCount - 1 := by omega
    rw [this]; exact hlast
  · simp [emit, h4]

/-- The locked removal block on a table that does not hold `fd`: nothing changes but the
trace, and the loop does not leave through `break`. -/
theorem removeClient_absent (fd : Int) (w : World)
    (hcap : w.acceptedSocketsCount ≤ CAPACITY) (habs : fd ∉ w.fds) :
    removeClient fd w = .ok (emit (emit w .lock) .unlock, false) := by
  have h := removeLoop_absent fd w.acceptedSocketsCount 0 (emit w .lock)
    (by simpa using hcap) (by
      intro x hx hxfd
      apply habs
      exact List.mem_map.2 ⟨x, by simpa [World.peers, emit] using hx, hxfd⟩)
  simp only [removeClient]
  have : (emit w .lock).acceptedSocketsCount = w.acceptedSocketsCount := rfl
  rw [this, h]

/-! ## Deliveries over a table with distinct descriptors -/

theorem recipients_filter_other (message : List Byte) (fd : Int) :
    ∀ (ps : List AcceptedSocket), (ps.map (fun e => e.socketFD)).Nodup →
      ∀ p ∈ ps, p.socketFD ≠ fd →
        (recipients message fd ps).filter (fun x => decide (x.1 = p.socketFD))
          = [(p.socketFD, cstr message)] := by
  intro ps hd p hp hne
  obtain ⟨pre, e, post, hsplit, hfd, hpre, hpost⟩ :=
    split_of_distinct ps p.socketFD hd (List.mem_map.2 ⟨p, hp, rfl⟩)
  subst hsplit
  have hnone : ∀ (l : List AcceptedSocket), (∀ x ∈ l, x.socketFD ≠ p.socketFD) →
      (recipients message fd l).filter (fun x => decide (x.1 = p.socketFD)) = [] := by
    intro l hl
    rw [List.filter_eq_nil_iff]
    intro x hx
    simp only [recipients, List.mem_map, List.mem_filter] at hx
    obtain ⟨y, ⟨hy, _⟩, rfl⟩ := hx
    simpa using hl y hy
  have happ : recipients message fd (pre ++ e :: post)
      = recipients message fd pre ++ (e.socketFD, cstr message) :: recipients message fd post := by
    simp [recipients, List.filter_append, List.filter_cons, hfd, hne]
  rw [happ, List.filter_append, List.filter_cons, hnone pre hpre, hnone post hpost]
  simp [hfd]

theorem recipients_filter_self (message : List Byte) (fd : Int) (ps : List AcceptedSocket) :
    (recipients message fd ps).filter (fun x => decide (x.1 = fd)) = [] := by
  rw [List.filter_eq_nil_iff]
  intro x hx
  simp only [recipients, List.mem_map, List.mem_filter] at hx
  obtain ⟨y, ⟨_, hy⟩, rfl⟩ := hx
  simpa using hy

/-! ## Registration -/

theorem take_succ_set : ∀ (l : List AcceptedSocket) (c : Nat) (v : AcceptedSocket),
    c < l.length → (l.set c v).take (c + 1) = l.take c ++ [v]
  | [], _, _, h => by simp at h
  | x :: l, 0, v, _ => by simp
  | x :: l, c + 1, v, h => by
    have ih := take_succ_set l c v (by simpa using h)
    simp only [List.set_cons_succ, List.take_succ_cons, List.cons_append, ih]

/-- The registration block with room left in the array: it returns, stores the new entry
in slot `acceptedSocketsCount`, raises the count by one and only takes and releases the
mutex. -/
theorem registerClient_spec (clientSocket : AcceptedSocket) (w : World)
    (hroom : w.acceptedSocketsCount < CAPACITY) :
    ∃ w', registerClient clientSocket w = .ok w' ∧
      w'.acceptedSockets.val[w.acceptedSocketsCount]? = some clientSocket ∧
      w'.acceptedSocketsCount = w.acceptedSocketsCount + 1 ∧
      w'.peers = w.peers ++ [clientSocket] ∧
      w'.trace = w.trace ++ [Event.lock, Event.unlock] := by
  have hl : w.acceptedSocketsCount < w.acceptedSockets.val.length := by
    rw [w.acceptedSockets.property]; exact hroom
  refine ⟨emit { w with
      acceptedSockets := ⟨w.acceptedSockets.val.set w.acceptedSocketsCount clientSocket, by
        rw [List.length_set]; exact w.acceptedSockets.property⟩
      acceptedSocketsCount := w.acceptedSocketsCount + 1
      trace := w.trace ++ [Event.lock] } .unlock, ?_, ?_, rfl, ?_, ?_⟩
  · simp only [registerClient, writeSlot, emit]
    rw [if_pos hroom]
  · simp only [emit]
    exact List.getElem?_set_self hl
  · simp only [World.peers, emit]
    exact take_succ_set _ _ _ hl
  · simp [emit]

/-- The removal block returns on every table whose count fits the array, whatever the
descriptor; it makes no call besides taking and releasing the mutex. -/
theorem removeLoop_total (fd : Int) :
    ∀ (n i : Nat) (w : World), i + n ≤ CAPACITY → w.acceptedSocketsCount ≤ CAPACITY →
      ∃ w' found, removeLoop fd n i w = .ok (w', found) ∧ w'.trace = w.trace := by
  intro n
  induction n with
  | zero => intro i w _ _; exact ⟨w, false, rfl, rfl⟩
  | succ n ih =>
    intro i w h hcap
    obtain ⟨e, _, hr⟩ := readSlot_of_lt w i (by omega)
    by_cases hfd : e.socketFD = fd
    · obtain ⟨last, hlast, _⟩ := readSlot_of_lt w (w.acceptedSocketsCount - 1) (by omega)
      have hi : i < CAPACITY := by omega
      have hr2 : readSlot { w with acceptedSocketsCount := w.acceptedSocketsCount - 1 }
          (w.acceptedSocketsCount - 1) = .ok last := by simp [readSlot, hlast]
      refine ⟨{ w with
          acceptedSocketsCount := w.acceptedSocketsCount - 1
          acceptedSockets := ⟨w.acceptedSockets.val.set i last, by
            rw [List.length_set]; exact w.acceptedSockets.property⟩ }, true, ?_, rfl⟩
      simp only [removeLoop, hr]
      rw [if_pos hfd]
      simp only [hr2, writeSlot]
      rw [if_pos hi]
    · obtain ⟨w', found, h1, h2⟩ := ih (i + 1) w (by omega) hcap
      refine ⟨w', found, ?_, h2⟩
      simp only [removeLoop, hr]
      rw [if_neg hfd]
      exact h1

theorem removeClient_total (fd : Int) (w : World)
    (hcap : w.acceptedSocketsCount ≤ CAPACITY) :
    ∃ w' found, removeClient fd w = .ok (w', found) ∧
      w'.trace = w.trace ++ [Event.lock, Event.unlock] := by
  obtain ⟨w2, found, h1, h2⟩ := removeLoop_total fd w.acceptedSocketsCount 0 (emit w .lock)
    (by simpa using hcap) (by simpa [emit] using hcap)
  refine ⟨emit w2 .unlock, found, ?_, ?_⟩
  · simp only [removeClient]
    have : (emit w .lock).acceptedSocketsCount = w.acceptedSocketsCount := rfl
    rw [this, h1]
  · simp [emit, h2]

/-! ## The read loop of a session -/

/-- A session that has handled the reads `msgs` and is back in `recv` continues from there:
the loop over `msgs ++ tail` is the loop over `tail` from the world reached. -/
theorem receiveLoop_append (env : Env) (s : AcceptedSocket) :
    ∀ (msgs tail : List Incoming) (w w1 : World),
      receiveLoop env s msgs w = .ok (w1, false) →
      receiveLoop env s (msgs ++ tail) w = receiveLoop env s tail w1 := by
  intro msgs
  induction msgs with
  | nil =>
    intro tail w w1 h
    simp only [receiveLoop] at h
    injection h with h
    injection h with h _
    rw [h]; rfl
  | cons inc msgs ih =>
    intro tail w w1 h
    simp only [List.cons_append, receiveLoop] at h ⊢
    cases hit : receiveIteration env s inc w with
    | error e => rw [hit] at h; simp at h
    | ok p =>
      obtain ⟨w2, ex⟩ := p
      cases ex with
      | again =>
        rw [hit] at h
        simp only at h ⊢
        exact ih tail w2 w1 h
      | brk => rw [hit] at h; simp at h

/-- One pass of the read loop on a non-empty delivery, when the buffer allocation succeeds
and no `send` raises `SIGPIPE`: the text (the C string of the first 1023 bytes) is printed
and broadcast, the table is left alone and the loop goes round again. -/
theorem receiveIteration_message (env : Env) (s : AcceptedSocket) (t : List Byte) (w : World)
    (hcap : w.acceptedSocketsCount ≤ CAPACITY) (hne : t ≠ [])
    (hmem : env.malloc w.trace
      ((snprintf fmtMessage [s.name, t.take 1023]).length + 1) = true)
    (hret : ∀ tr, env.sendOutcome tr ≠ .sigpipe) :
    ∃ w' evs, receiveIteration env s (.bytes t) w = .ok (w', .again) ∧
      w'.acceptedSockets = w.acceptedSockets ∧
      w'.acceptedSocketsCount = w.acceptedSocketsCount ∧
      w'.trace = w.trace ++ [Event.stdout (cstr (snprintf fmtMessage [s.name, t.take 1023])),
        Event.lock] ++ evs ++ [Event.unlock] ∧
      sendsOf evs = recipients (snprintf fmtMessage [s.name, t.take 1023]) s.socketFD w.peers := by
  have hpos : (recv (.bytes t) 1023).1 > 0 := by
    cases t with
    | nil => exact absurd rfl hne
    | cons b bs => simp [recv]; omega
  have hdata : (recv (.bytes t) 1023).2 = t.take 1023 := rfl
  obtain ⟨w', evs, h1, h2, h3, h4, _, h6⟩ :=
    formatAndSend_spec env fmtMessage s.name (t.take 1023) s w hcap hmem hret
  refine ⟨w', evs, ?_, h2, h3, h4, h6⟩
  simp only [receiveIteration]
  rw [if_pos hpos, hdata, h1]

/-- When memory never runs out and no `send` raises `SIGPIPE`, a session relays any
sequence of non-empty deliveries, one after the other in the order received, leaves the
table alone and is then back in `recv`. -/
theorem receiveLoop_relays (env : Env) (s : AcceptedSocket)
    (hmem : ∀ tr n, env.malloc tr n = true) (hret : ∀ tr, env.sendOutcome tr ≠ .sigpipe) :
    ∀ (msgs : List Incoming) (w : World), w.acceptedSocketsCount ≤ CAPACITY →
      (∀ m ∈ msgs, ∃ t, m = .bytes t ∧ t ≠ []) →
      ∃ w1 evs, receiveLoop env s msgs w = .ok (w1, false) ∧
        w1.acceptedSockets = w.acceptedSockets ∧
        w1.acceptedSocketsCount = w.acceptedSocketsCount ∧
        w1.trace = w.trace ++ evs ∧
        sendsOf evs = relays s.name s.socketFD w.peers msgs := by
  intro msgs
  induction msgs with
  | nil => intro w _ _; exact ⟨w, [], rfl, rfl, rfl, by simp, rfl⟩
  | cons m msgs ih =>
    intro w hcap hall
    obtain ⟨t, hm, hne⟩ := hall m (List.mem_cons_self _ _)
    subst hm
    obtain ⟨w2, evs, a1, a2, a3, a4, a5⟩ :=
      receiveIteration_message env s t w hcap hne (hmem _ _) hret
    obtain ⟨w1, evs', b1, b2, b3, b4, b5⟩ := ih w2 (by rw [a3]; exact hcap)
      (fun x hx => hall x (List.mem_cons_of_mem _ hx))
    have hp : w2.peers = w.peers := by simp only [World.peers, a2, a3]
    refine ⟨w1, [Event.stdout (cstr (snprintf fmtMessage [s.name, t.take 1023])), Event.lock]
      ++ evs ++ [Event.unlock] ++ evs', ?_, by rw [b2, a2], by rw [b3, a3], ?_, ?_⟩
    · simp only [receiveLoop, a1]
      exact b1
    · rw [b4, a4]; simp
    · rw [sendsOf_append, sendsOf_append, sendsOf_append, a5, b5, hp]
      simp [sendsOf, relays]

/-- A sample environment never raises `SIGPIPE`. -/
theorem envOk_returns : ∀ tr, envOk.sendOutcome tr ≠ .sigpipe :=
  fun _ h => SendOutcome.noConfusion h

/-- A sample environment never raises `SIGPIPE`. -/
theorem envFirstSendFails_returns : ∀ tr, envFirstSendFails.sendOutcome tr ≠ .sigpipe := by
  intro tr
  simp only [envFirstSendFails]
  split <;> exact fun h => SendOutcome.noConfusion h

/-! ## Claims -/

/-- C1 as stated fails at two explicit inputs. With Alice and Bob registered and the
`malloc` of the text buffer failing, the pass for Bob's `"hi"` returns without any `send`:
Alice gets nothing. With Alice, Carol and Bob registered and the `send` to Alice raising
`SIGPIPE`, the process ends at that call: Carol gets nothing. -/
theorem C1_counterexample :
    ((worldOf [alice, bob]).peers = [alice, bob] ∧
      (receiveIteration envNoMemory bob (.bytes (ascii "hi")) (worldOf [alice, bob])).map
          (fun r => (sendsOf r.1.trace, r.2)) = .ok ([], .again)) ∧
    ((worldOf [alice, carol, bob]).peers = [alice, carol, bob] ∧
      receiveIteration envFirstSendSigpipe bob (.bytes (ascii "hi"))
          (worldOf [alice, carol, bob])
        = .error (.sigpipe [.stdout (ascii "Bob: hi\n"), .lock,
            .send 4 (ascii "Bob: hi\n") .sigpipe])) := by
  decide

/-- C1 (message fan-out), as the code has it. On a table that fits the array and has
pairwise distinct descriptors, when `recv` in `receiveData` delivers a text `t` that is
non-empty, at most 1023 bytes long and free of NUL, the `malloc` of the text buffer in
`formatAndSend` succeeds and no `send` raises `SIGPIPE`, the pass through the loop body
returns and stays in the loop; the deliveries it attempts are exactly one `"<name>: <t>\n"`
per registered peer with another descriptor, in table order: each such peer gets that text
exactly once, the descriptor of the sender gets nothing, and table and count are unchanged.
The sender may be any record; in particular a registered one. -/
theorem C1_message_fanout (env : Env) (w : World) (sender : AcceptedSocket) (t : List Byte)
    (hcap : w.acceptedSocketsCount ≤ CAPACITY)
    (hdistinct : w.fds.Nodup)
    (hne : t ≠ []) (hlen : t.length ≤ 1023) (hnul : ∀ b ∈ t, b ≠ 0)
    (hmem : env.malloc w.trace ((snprintf fmtMessage [sender.name, t]).length + 1) = true)
    (hret : ∀ tr, env.sendOutcome tr ≠ .sigpipe) :
    ∃ w' evs, receiveIteration env sender (.bytes t) w = .ok (w', .again) ∧
      w'.acceptedSockets = w.acceptedSockets ∧
      w'.acceptedSocketsCount = w.acceptedSocketsCount ∧
      w'.trace = w.trace ++ evs ∧
      sendsOf evs
        = (w.peers.filter (fun p => decide (p.socketFD ≠ sender.socketFD))).map
            (fun p => (p.socketFD, cstr sender.name ++ ascii ": " ++ t ++ ascii "\n")) ∧
      (∀ p ∈ w.peers, p.socketFD ≠ sender.socketFD →
        (sendsOf evs).filter (fun x => decide (x.1 = p.socketFD))
          = [(p.socketFD, cstr sender.name ++ ascii ": " ++ t ++ ascii "\n")]) ∧
      (sendsOf evs).filter (fun x => decide (x.1 = sender.socketFD)) = [] := by
  have htake : t.take 1023 = t := List.take_of_length_le hlen
  obtain ⟨w', evs, h1, h2, h3, h4, h6⟩ :=
    receiveIteration_message env sender t w hcap hne (by rw [htake]; exact hmem) hret
  rw [htake] at h4 h6
  have htext : cstr (snprintf fmtMessage [sender.name, t])
      = cstr sender.name ++ ascii ": " ++ t ++ ascii "\n" := by
    rw [snprintf_fmtMessage, cstr_message_text, cstr_of_no_nul t hnul]
  have hs : sendsOf ([Event.stdout (cstr (snprintf fmtMessage [sender.name, t])),
      Event.lock] ++ evs ++ [Event.unlock])
        = recipients (snprintf fmtMessage [sender.name, t]) sender.socketFD w.peers := by
    rw [sendsOf_append, sendsOf_append, h6]
    simp [sendsOf]
  refine ⟨w', [Event.stdout (cstr (snprintf fmtMessage [sender.name, t])), Event.lock]
      ++ evs ++ [Event.unlock], h1, h2, h3, ?_, ?_, ?_, ?_⟩
  · rw [h4]; simp
  · rw [hs, recipients, htext]
  · intro p hp hpne
    rw [hs, ← htext]
    exact recipients_filter_other _ _ w.peers hdistinct p hp hpne
  · rw [hs]
    exact recipients_filter_self _ _ _

/-- Worked instance of C1: Alice and Bob are registered and Bob sends `"hi"`. -/
theorem C1_message_fanout_witness :
    ∃ w' evs, receiveIteration envOk bob (.bytes (ascii "hi")) (worldOf [alice, bob])
        = .ok (w', .again) ∧
      w'.acceptedSockets = (worldOf [alice, bob]).acceptedSockets ∧
      w'.acceptedSocketsCount = (worldOf [alice, bob]).acceptedSocketsCount ∧
      w'.trace = (worldOf [alice, bob]).trace ++ evs ∧
      sendsOf evs
        = ((worldOf [alice, bob]).peers.filter
            (fun p => decide (p.socketFD ≠ bob.socketFD))).map
            (fun p => (p.socketFD, cstr bob.name ++ ascii ": " ++ ascii "hi" ++ ascii "\n")) ∧
      (∀ p ∈ (worldOf [alice, bob]).peers, p.socketFD ≠ bob.socketFD →
        (sendsOf evs).filter (fun x => decide (x.1 = p.socketFD))
          = [(p.socketFD, cstr bob.name ++ ascii ": " ++ ascii "hi" ++ ascii "\n")]) ∧
      (sendsOf evs).filter (fun x => decide (x.1 = bob.socketFD)) = [] :=
  C1_message_fanout envOk (worldOf [alice, bob]) bob (ascii "hi")
    (by decide) (by decide) (by decide) (by decide) (by decide) rfl envOk_returns

/-- Scenario 2 evaluated: with Alice and Bob registered, Bob's `"hi"` goes to Alice alone,
as `"Bob: hi\n"`. -/
theorem scenario_message :
    (receiveIteration envOk bob (.bytes (ascii "hi")) (worldOf [alice, bob])).map
        (fun r => (sendsOf r.1.trace, r.1.peers, r.2))
      = .ok ([(4, ascii "Bob: hi\n")], [alice, bob], .again) := by
  decide

/-- C9 as stated fails: with Alice, Bob, Carol and Dave registered and Dave broadcasting,
a `send` to Alice that fails by raising `SIGPIPE` ends the process at that call; nothing is
sent to Bob or Carol. -/
theorem C9_counterexample :
    (worldOf [alice, bob, carol, dave]).peers = [alice, bob, carol, dave] ∧
    sendMsgToOthers envFirstSendSigpipe (ascii "x") dave (worldOf [alice, bob, carol, dave])
      = .error (.sigpipe [.lock, .send 4 (ascii "x") .sigpipe]) := by
  decide

/-- C9 (broadcast isolation), as the code has it. On a table that fits the array, for every
sender and every text: under any two assignments of return values to the `send` calls
(every call returns, with success or with an error value), `sendMsgToOthers` returns under
both, attempts the same deliveries under both (one per registered peer with another
descriptor, in table order), and leaves table and count unchanged. Under an arbitrary
assignment of outcomes `env0` the function either returns or a `send` raises `SIGPIPE`; in
that case the process ends there, with deliveries attempted only to a non-empty initial
stretch of those peers. -/
theorem C9_broadcast_isolation (env env' env0 : Env) (message : List Byte)
    (sender : AcceptedSocket) (w : World) (hcap : w.acceptedSocketsCount ≤ CAPACITY)
    (hret : ∀ tr, env.sendOutcome tr ≠ .sigpipe)
    (hret' : ∀ tr, env'.sendOutcome tr ≠ .sigpipe) :
    (∃ w1 w2 evs1 evs2,
      sendMsgToOthers env message sender w = .ok w1 ∧
      sendMsgToOthers env' message sender w = .ok w2 ∧
      w1.trace = w.trace ++ evs1 ∧ w2.trace = w.trace ++ evs2 ∧
      sendsOf evs1 = sendsOf evs2 ∧
      sendsOf evs1
        = (w.peers.filter (fun p => decide (p.socketFD ≠ sender.socketFD))).map
            (fun p => (p.socketFD, cstr message)) ∧
      w1.acceptedSockets = w.acceptedSockets ∧
      w1.acceptedSocketsCount = w.acceptedSocketsCount) ∧
    ((∃ w0, sendMsgToOthers env0 message sender w = .ok w0) ∨
      (∃ evs k, sendMsgToOthers env0 message sender w
          = .error (.sigpipe (w.trace ++ [Event.lock] ++ evs)) ∧
        sendsOf evs
          = ((w.peers.filter (fun p => decide (p.socketFD ≠ sender.socketFD))).map
              (fun p => (p.socketFD, cstr message))).take (k + 1))) := by
  obtain ⟨w1, evs1, a1, a2, a3, a4, _, a6⟩ :=
    sendMsgToOthers_spec env message sender w hcap hret
  obtain ⟨w2, evs2, b1, _, _, b4, _, b6⟩ :=
    sendMsgToOthers_spec env' message sender w hcap hret'
  have hs : ∀ evs : List Event,
      sendsOf ([Event.lock] ++ evs ++ [Event.unlock]) = sendsOf evs := by
    intro evs
    rw [sendsOf_append, sendsOf_append]
    simp [sendsOf]
  refine ⟨⟨w1, w2, [Event.lock] ++ evs1 ++ [Event.unlock],
    [Event.lock] ++ evs2 ++ [Event.unlock], a1, b1, ?_, ?_, ?_, ?_, a2, a3⟩, ?_⟩
  · rw [a4]; simp
  · rw [b4]; simp
  · rw [hs, hs, a6, b6]
  · rw [hs, a6, recipients]
  · rcases sendMsgToOthers_cases env0 message sender w hcap with
      ⟨w0, _, c1, _⟩ | ⟨evs, k, c1, _, c3, _⟩
    · exact Or.inl ⟨w0, c1⟩
    · exact Or.inr ⟨evs, k, c1, by rw [c3, recipients]⟩

/-- Worked instance of C9: the targets are Alice, Bob and Carol (Dave sends); in the first
run the `send` to Alice returns `-1`, in the third it raises `SIGPIPE`. -/
theorem C9_broadcast_isolation_witness :
    (∃ w1 w2 evs1 evs2,
      sendMsgToOthers envFirstSendFails (ascii "x") dave (worldOf [alice, bob, carol, dave])
        = .ok w1 ∧
      sendMsgToOthers envOk (ascii "x") dave (worldOf [alice, bob, carol, dave]) = .ok w2 ∧
      w1.trace = (worldOf [alice, bob, carol, dave]).trace ++ evs1 ∧
      w2.trace = (worldOf [alice, bob, carol, dave]).trace ++ evs2 ∧
      sendsOf evs1 = sendsOf evs2 ∧
      sendsOf evs1
        = ((worldOf [alice, bob, carol, dave]).peers.filter
            (fun p => decide (p.socketFD ≠ dave.socketFD))).map
            (fun p => (p.socketFD, cstr (ascii "x"))) ∧
      w1.acceptedSockets = (worldOf [alice, bob, carol, dave]).acceptedSockets ∧
      w1.acceptedSocketsCount = (worldOf [alice, bob, carol, dave]).acceptedSocketsCount) ∧
    ((∃ w0, sendMsgToOthers envFirstSendSigpipe (ascii "x") dave
          (worldOf [alice, bob, carol, dave]) = .ok w0) ∨
      (∃ evs k, sendMsgToOthers envFirstSendSigpipe (ascii "x") dave
            (worldOf [alice, bob, carol, dave])
          = .error (.sigpipe ((worldOf [alice, bob, carol, dave]).trace ++ [Event.lock] ++ evs)) ∧
        sendsOf evs
          = (((worldOf [alice, bob, carol, dave]).peers.filter
              (fun p => decide (p.socketFD ≠ dave.socketFD))).map
              (fun p => (p.socketFD, cstr (ascii "x")))).take (k + 1))) :=
  C9_broadcast_isolation envFirstSendFails envOk envFirstSendSigpipe (ascii "x") dave
    (worldOf [alice, bob, carol, dave]) (by decide) envFirstSendFails_returns envOk_returns

/-- The first run behind the worked instance of C9, evaluated: the `send` to Alice returns
`-1` and the text still goes to Bob and Carol. -/
theorem broadcast_isolation_run :
    (sendMsgToOthers envFirstSendFails (ascii "x") dave
        (worldOf [alice, bob, carol, dave])).map (fun w => w.trace)
      = .ok [Event.lock, Event.send 4 (ascii "x") (.returned (-1)),
          Event.send 5 (ascii "x") (.returned 1),
          Event.send 6 (ascii "x") (.returned 1), Event.unlock] := by
  decide

/-- C3 as stated fails at two explicit inputs, with Alice, Bob and Carol registered and
Alice's session reading zero bytes. When the `malloc` of the text buffer fails the session
ends without any `send`: Bob and Carol are not told. When the `send` to Bob raises
`SIGPIPE` the process ends at that call: Carol is not told and no cleanup runs. -/
theorem C3_counterexample :
    (worldOf [alice, bob, carol]).peers = [alice, bob, carol] ∧
    (receiveData envNoMemory alice [.bytes []] (worldOf [alice, bob, carol])).map
        (fun o => o.map (fun w => sendsOf w.trace)) = .ok (some []) ∧
    receiveData envFirstSendSigpipe alice [.bytes []] (worldOf [alice, bob, carol])
      = .error (.sigpipe [.stdout (ascii "Alice has disconnected.\n"), .lock,
          .send 5 (ascii "Alice has disconnected.\n") .sigpipe]) := by
  decide

/-- C3 (leave on graceful close), as the code has it. Take a session of `peer` that has
handled the reads `msgs` and is back in `recv` in world `w1`, where the table fits the
array, has pairwise distinct descriptors and holds `peer`. When the next read yields zero
bytes, the `malloc` of the text buffer succeeds and no `send` raises `SIGPIPE`,
`receiveData` returns; after the calls made up to `w1` every other registered peer is sent
exactly `"<name> has disconnected.\n"`, once, and nothing else is sent; afterwards no
registered entry carries the descriptor of `peer`, the count is one lower, and every other
entry is still registered exactly once, unchanged (the registered entries are the former
ones without the peer, up to order). -/
theorem C3_leave_on_close (env : Env) (w w1 : World) (peer : AcceptedSocket)
    (msgs rest : List Incoming)
    (hloop : receiveLoop env peer msgs w = .ok (w1, false))
    (hcap : w1.acceptedSocketsCount ≤ CAPACITY)
    (hdistinct : w1.fds.Nodup)
    (hreg : peer ∈ w1.peers)
    (hmem : env.malloc w1.trace ((snprintf fmtLeft [peer.name, []]).length + 1) = true)
    (hret : ∀ tr, env.sendOutcome tr ≠ .sigpipe) :
    ∃ w' evs, receiveData env peer (msgs ++ .bytes [] :: rest) w = .ok (some w') ∧
      w'.trace = w1.trace ++ evs ∧
      sendsOf evs
        = (w1.peers.filter (fun p => decide (p.socketFD ≠ peer.socketFD))).map
            (fun p => (p.socketFD, cstr peer.name ++ ascii " has disconnected.\n")) ∧
      (∀ p ∈ w1.peers, p.socketFD ≠ peer.socketFD →
        (sendsOf evs).filter (fun x => decide (x.1 = p.socketFD))
          = [(p.socketFD, cstr peer.name ++ ascii " has disconnected.\n")]) ∧
      (∀ e ∈ w'.peers, e.socketFD ≠ peer.socketFD) ∧
      w'.acceptedSocketsCount + 1 = w1.acceptedSocketsCount ∧
      (∀ e ∈ w1.peers, e.socketFD ≠ peer.socketFD → w'.peers.count e = 1) ∧
      w'.peers.Perm (w1.peers.filter (fun e => decide (e.socketFD ≠ peer.socketFD))) := by
  obtain ⟨w2, evs, h1, h2, h3, h4, _, h6⟩ :=
    formatAndSend_spec env fmtLeft peer.name [] peer w1 hcap hmem hret
  have hp1 : (emit w2 (.close peer.socketFD)).peers = w1.peers := by
    simp only [World.peers, emit, h2, h3]
  have hf1 : (emit w2 (.close peer.socketFD)).fds = w1.fds := by
    simp only [World.fds, hp1]
  obtain ⟨w3, r1, r2, r3, r4⟩ := removeClient_registered peer.socketFD
    (emit w2 (.close peer.socketFD)) (by simpa [emit, h3] using hcap)
    (by rw [hf1]; exact hdistinct)
    (by rw [hf1]; exact List.mem_map.2 ⟨peer, hreg, rfl⟩)
  rw [hp1] at r3
  have htext : cstr (snprintf fmtLeft [peer.name, []])
      = cstr peer.name ++ ascii " has disconnected.\n" := by
    rw [snprintf_fmtLeft, cstr_left_text]
  have hs : sendsOf ([Event.stdout (cstr (snprintf fmtLeft [peer.name, []])), Event.lock]
      ++ evs ++ [Event.unlock] ++ [Event.close peer.socketFD, Event.lock, Event.unlock])
        = recipients (snprintf fmtLeft [peer.name, []]) peer.socketFD w1.peers := by
    rw [sendsOf_append, sendsOf_append, sendsOf_append, h6]
    simp [sendsOf]
  refine ⟨w3, [Event.stdout (cstr (snprintf fmtLeft [peer.name, []])), Event.lock]
      ++ evs ++ [Event.unlock] ++ [Event.close peer.socketFD, Event.lock, Event.unlock],
    ?_, ?_, ?_, ?_, ?_, ?_, ?_, r3⟩
  · have hrecv : recv (.bytes []) 1023 = (0, []) := rfl
    simp only [receiveData]
    rw [receiveLoop_append env peer msgs (.bytes [] :: rest) w w1 hloop]
    simp [receiveLoop, receiveIteration, hrecv, h1, r1]
  · rw [r4]; simp [emit, h4]
  · rw [hs, recipients, htext]
  · intro p hp hpne
    rw [hs, ← htext]
    exact recipients_filter_other _ _ w1.peers hdistinct p hp hpne
  · intro e he
    have := (r3.mem_iff).1 he
    simpa using (List.mem_filter.1 this).2
  · simpa [emit, h3] using r2
  · intro e he hne
    rw [r3.count_eq e]
    apply List.count_eq_one_of_mem
    · exact (List.Nodup.of_map _ hdistinct).filter _
    · exact List.mem_filter.2 ⟨he, by simpa using hne⟩

/-- Worked instance of C3: Alice, Bob and Carol are registered; Alice's session relays
`"hi"` and then her connection is closed. -/
theorem C3_leave_on_close_witness :
    ∃ w' evs, receiveData envOk alice ([.bytes (ascii "hi")] ++ .bytes [] :: [])
        (worldOf [alice, bob, carol]) = .ok (some w') ∧
      w'.trace = afterHi.trace ++ evs ∧
      sendsOf evs
        = (afterHi.peers.filter (fun p => decide (p.socketFD ≠ alice.socketFD))).map
            (fun p => (p.socketFD, cstr alice.name ++ ascii " has disconnected.\n")) ∧
      (∀ p ∈ afterHi.peers, p.socketFD ≠ alice.socketFD →
        (sendsOf evs).filter (fun x => decide (x.1 = p.socketFD))
          = [(p.socketFD, cstr alice.name ++ ascii " has disconnected.\n")]) ∧
      (∀ e ∈ w'.peers, e.socketFD ≠ alice.socketFD) ∧
      w'.acceptedSocketsCount + 1 = afterHi.acceptedSocketsCount ∧
      (∀ e ∈ afterHi.peers, e.socketFD ≠ alice.socketFD → w'.peers.count e = 1) ∧
      w'.peers.Perm (afterHi.peers.filter
        (fun e => decide (e.socketFD ≠ alice.socketFD))) :=
  C3_leave_on_close envOk (worldOf [alice, bob, carol]) afterHi alice
    [.bytes (ascii "hi")] [] (by decide) (by decide) (by decide) (by decide) rfl
    envOk_returns

/-- The run behind the worked instance of C3, evaluated: Bob and Carol get Alice's `"hi"`
and then the leave text, and the table then holds Carol and Bob. -/
theorem leave_on_close_run :
    (receiveData envOk alice [.bytes (ascii "hi"), .bytes []]
        (worldOf [alice, bob, carol])).map
        (fun o => o.map (fun w => (sendsOf w.trace, w.peers)))
      = .ok (some ([(5, ascii "Alice: hi\n"), (6, ascii "Alice: hi\n"),
                    (5, ascii "Alice has disconnected.\n"),
                    (6, ascii "Alice has disconnected.\n")], [carol, bob])) := by
  decide

/-- C4 (removing an absent id). On a table that fits the array, for a descriptor that no
registered entry carries, the locked removal block returns, its scan ends without a hit
(the loop is not left through `break`), and table and count are unchanged; running it a
second time does the same. -/
theorem C4_remove_absent (w : World) (fd : Int)
    (hcap : w.acceptedSocketsCount ≤ CAPACITY) (habs : fd ∉ w.fds) :
    ∃ w1, removeClient fd w = .ok (w1, false) ∧
      w1.acceptedSockets = w.acceptedSockets ∧
      w1.acceptedSocketsCount = w.acceptedSocketsCount ∧
      ∃ w2, removeClient fd w1 = .ok (w2, false) ∧
        w2.acceptedSockets = w.acceptedSockets ∧
        w2.acceptedSocketsCount = w.acceptedSocketsCount := by
  refine ⟨emit (emit w .lock) .unlock, removeClient_absent fd w hcap habs, rfl, rfl,
    emit (emit (emit (emit w .lock) .unlock) .lock) .unlock, ?_, rfl, rfl⟩
  exact removeClient_absent fd (emit (emit w .lock) .unlock) hcap habs

/-- Worked instance of C4: descriptor 9 is removed from a table holding Alice and Bob. -/
theorem C4_remove_absent_witness :
    ∃ w1, removeClient 9 (worldOf [alice, bob]) = .ok (w1, false) ∧
      w1.acceptedSockets = (worldOf [alice, bob]).acceptedSockets ∧
      w1.acceptedSocketsCount = (worldOf [alice, bob]).acceptedSocketsCount ∧
      ∃ w2, removeClient 9 w1 = .ok (w2, false) ∧
        w2.acceptedSockets = (worldOf [alice, bob]).acceptedSockets ∧
        w2.acceptedSocketsCount = (worldOf [alice, bob]).acceptedSocketsCount :=
  C4_remove_absent (worldOf [alice, bob]) 9 (by decide) (by decide)

/-- After a registered descriptor is removed from a table with pairwise distinct
descriptors, removing it again finds nothing and changes neither table nor count. -/
theorem removeClient_twice (w : World) (fd : Int)
    (hcap : w.acceptedSocketsCount ≤ CAPACITY) (hdistinct : w.fds.Nodup)
    (hreg : fd ∈ w.fds) :
    ∃ w1 w2, removeClient fd w = .ok (w1, true) ∧ removeClient fd w1 = .ok (w2, false) ∧
      w2.acceptedSockets = w1.acceptedSockets ∧
      w2.acceptedSocketsCount = w1.acceptedSocketsCount := by
  obtain ⟨w1, r1, r2, r3, _⟩ := removeClient_registered fd w hcap hdistinct hreg
  have hcap1 : w1.acceptedSocketsCount ≤ CAPACITY := by omega
  have habs : fd ∉ w1.fds := by
    intro hmem
    obtain ⟨e, he, hfd⟩ := List.mem_map.1 hmem
    have := (List.mem_filter.1 ((r3.mem_iff).1 he)).2
    simp at this
    exact this hfd
  exact ⟨w1, emit (emit w1 .lock) .unlock, r1, removeClient_absent fd w1 hcap1 habs, rfl, rfl⟩

/-! ## The accept path -/

theorem createClientThread_spec (threadOk : Bool) (s : AcceptedSocket) (w : World) :
    ∃ thr, (createClientThread threadOk s w).trace = w.trace ++ thr ∧ sendsOf thr = [] ∧
      (createClientThread threadOk s w).acceptedSockets = w.acceptedSockets ∧
      (createClientThread threadOk s w).acceptedSocketsCount = w.acceptedSocketsCount := by
  cases threadOk
  · exact ⟨[Event.perror (ascii "Failed to create thread"), Event.close s.socketFD],
      by simp [createClientThread, emit], rfl, rfl, rfl⟩
  · exact ⟨[], by simp [createClientThread], rfl, rfl, rfl⟩

theorem peers_congr (w1 w : World) (h1 : w1.acceptedSockets = w.acceptedSockets)
    (h2 : w1.acceptedSocketsCount = w.acceptedSocketsCount) : w1.peers = w.peers := by
  simp only [World.peers, h1, h2]

/-- C2 as stated fails at explicit inputs. With ten peers registered, the pass of the
accept loop for an eleventh named connection writes `acceptedSockets[10]`, outside the
array, so no table with one more entry results. With an entry still registered under
descriptor 4 and a new connection accepted on descriptor 4, the join text is sent to nobody
although a peer was already registered. With Alice registered and the `malloc` of the text
buffer failing, Bob is registered but the join text is sent to nobody. With every `malloc`
failing the process exits. With Alice and Carol registered and the `send` to Alice raising
`SIGPIPE`, the process ends at that call: Carol is not told and Bob is not registered. -/
theorem C2_counterexample :
    (((startAcceptingConnections envOk tenArrivals World.initial).map
        (fun w => w.acceptedSocketsCount) = .ok 10) ∧
      ((startAcceptingConnections envOk tenArrivals World.initial).bind
        (acceptIteration envOk ⟨14, ⟨2, 50011, 2130706433⟩, .bytes (ascii "Kim"), true⟩)
          = .error (.outOfBounds 10))) ∧
    ((worldOf [alice]).peers = [alice] ∧
      (acceptIteration envOk ⟨4, ⟨2, 50002, 2130706433⟩, .bytes (ascii "Bob"), true⟩
        (worldOf [alice])).map (fun w => sendsOf w.trace) = .ok []) ∧
    ((acceptIteration envNoBuffer ⟨5, ⟨2, 50002, 2130706433⟩, .bytes (ascii "Bob"), true⟩
        (worldOf [alice])).map (fun w => (sendsOf w.trace, w.peers)) = .ok ([], [alice, bob])) ∧
    (acceptIteration envNoMemory ⟨5, ⟨2, 50002, 2130706433⟩, .bytes (ascii "Bob"), true⟩
        (worldOf [alice]) = .error (.exited 1)) ∧
    ((worldOf [alice, carol]).peers = [alice, carol] ∧
      acceptIteration envFirstSendSigpipe
          ⟨5, ⟨2, 50002, 2130706433⟩, .bytes (ascii "Bob"), true⟩ (worldOf [alice, carol])
        = .error (.sigpipe [.stdout (ascii "Bob has connected\n"), .lock,
            .send 4 (ascii "Bob has connected\n") .sigpipe])) := by
  decide

/-- C2 (join), as the code has it. For a table with room left (fewer than 10 entries), an
accepted connection (descriptor not negative) whose name bytes `nm` arrive non-empty, with
both allocations of the pass succeeding (the `struct AcceptedSocket` and the text buffer)
and no `send` raising `SIGPIPE`, one pass of the accept loop returns; it sends exactly
`"<name> has connected\n"`, with `<name>` the C string of the first 99 bytes of `nm`, once
to every registered peer whose descriptor differs from the new one, in table order, and to
no one else; when no registered entry carries the new descriptor these are all registered
peers. Afterwards the registered entries are the former ones followed by the entry of the
new peer, and the count is one higher. On an empty table nothing is sent and the count
becomes 1. -/
theorem C2_join (env : Env) (w : World) (a : Arrival) (nm : List Byte)
    (hname : a.nameData = .bytes nm) (hne : nm ≠ [])
    (hfd : 0 ≤ a.clientSocketFD)
    (hroom : w.acceptedSocketsCount < CAPACITY)
    (hmemStruct : env.malloc w.trace sizeofAcceptedSocket = true)
    (hmemBuffer : env.malloc w.trace
      ((snprintf fmtJoined [nm.take 99, []]).length + 1) = true)
    (hret : ∀ tr, env.sendOutcome tr ≠ .sigpipe) :
    ∃ w' evs, acceptIteration env a w = .ok w' ∧
      w'.trace = w.trace ++ evs ∧
      sendsOf evs
        = (w.peers.filter (fun p => decide (p.socketFD ≠ a.clientSocketFD))).map
            (fun p => (p.socketFD, cstr (nm.take 99) ++ ascii " has connected\n")) ∧
      (a.clientSocketFD ∉ w.fds →
        sendsOf evs
          = w.peers.map (fun p => (p.socketFD, cstr (nm.take 99) ++ ascii " has connected\n"))) ∧
      w'.peers = w.peers ++ [{ socketFD := a.clientSocketFD, address := a.clientAddress,
                               success := true, name := nm.take 99 }] ∧
      w'.acceptedSocketsCount = w.acceptedSocketsCount + 1 ∧
      (w.acceptedSocketsCount = 0 → sendsOf evs = [] ∧ w'.acceptedSocketsCount = 1) := by
  have hcap : w.acceptedSocketsCount ≤ CAPACITY := Nat.le_of_lt hroom
  have hsucc : decide (a.clientSocketFD ≥ 0) = true := by simpa using hfd
  have hpos : ((recv (.bytes nm) 99).1 > 0) := by
    cases nm with
    | nil => exact absurd rfl hne
    | cons b bs => simp [recv]; omega
  have hdata : (recv (.bytes nm) 99).2 = nm.take 99 := rfl
  let s0 : AcceptedSocket := { socketFD := a.clientSocketFD, address := a.clientAddress,
                               success := true, name := nm.take 99 }
  obtain ⟨w1, evs, h1, h2, h3, h4, _, h6⟩ :=
    formatAndSend_spec env fmtJoined (nm.take 99) [] s0 w hcap hmemBuffer hret
  obtain ⟨w2, g1, _, g3, g4, g5⟩ := registerClient_spec s0 w1 (by rw [h3]; exact hroom)
  obtain ⟨thr, t1, t2, t3, t4⟩ := createClientThread_spec a.threadOk s0 w2
  have htext : cstr (snprintf fmtJoined [nm.take 99, []])
      = cstr (nm.take 99) ++ ascii " has connected\n" := by
    rw [snprintf_fmtJoined, cstr_joined_text]
  have hs : sendsOf ([Event.stdout (cstr (snprintf fmtJoined [nm.take 99, []])), Event.lock]
      ++ evs ++ [Event.unlock] ++ [Event.lock, Event.unlock] ++ thr)
        = (w.peers.filter (fun p => decide (p.socketFD ≠ a.clientSocketFD))).map
            (fun p => (p.socketFD, cstr (nm.take 99) ++ ascii " has connected\n")) := by
    rw [sendsOf_append, sendsOf_append, sendsOf_append, sendsOf_append, h6, t2, recipients,
      htext]
    simp [sendsOf, s0]
  refine ⟨createClientThread a.threadOk s0 w2,
    [Event.stdout (cstr (snprintf fmtJoined [nm.take 99, []])), Event.lock]
      ++ evs ++ [Event.unlock] ++ [Event.lock, Event.unlock] ++ thr, ?_, ?_, hs, ?_, ?_, ?_, ?_⟩
  · simp only [acceptIteration, acceptConnection, hmemStruct, hname, if_true]
    rw [if_pos hpos, hdata, hsucc, h1]
    simp only [if_true]
    rw [g1]
  · rw [t1, g5, h4]; simp
  · intro hfresh
    rw [hs]
    congr 1
    apply List.filter_eq_self.2
    intro p hp
    have : p.socketFD ≠ a.clientSocketFD := fun h => hfresh (List.mem_map.2 ⟨p, hp, h⟩)
    simpa using this
  · rw [peers_congr _ w2 t3 t4, g4, peers_congr w1 w h2 h3]
  · rw [t4, g3, h3]
  · intro hzero
    refine ⟨?_, by rw [t4, g3, h3, hzero]⟩
    rw [hs]
    simp [World.peers, hzero]

/-- Worked instance of C2: Bob connects while Alice is registered. -/
theorem C2_join_witness :
    ∃ w' evs, acceptIteration envOk ⟨5, ⟨2, 50002, 2130706433⟩, .bytes (ascii "Bob"), true⟩
        (worldOf [alice]) = .ok w' ∧
      w'.trace = (worldOf [alice]).trace ++ evs ∧
      sendsOf evs
        = ((worldOf [alice]).peers.filter (fun p => decide (p.socketFD ≠ 5))).map
            (fun p => (p.socketFD, cstr ((ascii "Bob").take 99) ++ ascii " has connected\n")) ∧
      ((5 : Int) ∉ (worldOf [alice]).fds →
        sendsOf evs
          = (worldOf [alice]).peers.map
              (fun p => (p.socketFD, cstr ((ascii "Bob").take 99) ++ ascii " has connected\n"))) ∧
      w'.peers = (worldOf [alice]).peers ++
        [{ socketFD := 5, address := ⟨2, 50002, 2130706433⟩, success := true,
           name := (ascii "Bob").take 99 }] ∧
      w'.acceptedSocketsCount = (worldOf [alice]).acceptedSocketsCount + 1 ∧
      ((worldOf [alice]).acceptedSocketsCount = 0 →
        sendsOf evs = [] ∧ w'.acceptedSocketsCount = 1) :=
  C2_join envOk (worldOf [alice]) ⟨5, ⟨2, 50002, 2130706433⟩, .bytes (ascii "Bob"), true⟩
    (ascii "Bob") rfl (by decide) (by decide) (by decide) rfl rfl envOk_returns

/-- Scenario 1 evaluated: Alice connects to the freshly started server; the join text goes
to nobody and the table then holds exactly her entry. -/
theorem scenario_first_join :
    (acceptIteration envOk ⟨4, ⟨2, 50001, 2130706433⟩, .bytes (ascii "Alice"), true⟩
        World.initial).map (fun w => (sendsOf w.trace, w.peers, w.acceptedSocketsCount))
      = .ok ([], [alice], 1) := by
  decide

/-- C5 as stated fails: on the freshly started server, a connection accepted on
descriptor 4 whose name read fails (first run) or yields zero bytes (second run) leaves the
table holding an entry named `"Unknown"`, whereas the table before was empty. -/
theorem C5_counterexample :
    World.initial.peers = [] ∧
    (acceptIteration envOk ⟨4, ⟨2, 50001, 2130706433⟩, .error, true⟩ World.initial).map
        (fun w => w.peers)
      = .ok [{ socketFD := 4, address := ⟨2, 50001, 2130706433⟩, success := true,
               name := ascii "Unknown" }] ∧
    (acceptIteration envOk ⟨4, ⟨2, 50001, 2130706433⟩, .bytes [], true⟩ World.initial).map
        (fun w => w.peers)
      = .ok [{ socketFD := 4, address := ⟨2, 50001, 2130706433⟩, success := true,
               name := ascii "Unknown" }] := by
  decide

/-- C5, as the code has it. For a table with room left, an accepted connection
(descriptor not negative) on which the name read fails or yields zero bytes, and a
successful allocation, one pass of the accept loop returns and registers the peer under
the name `"Unknown"`: the registered entries are the former ones followed by that entry and
the count is one higher. No join text is sent to anyone. -/
theorem C5_unnamed_is_registered (env : Env) (w : World) (a : Arrival)
    (hfail : a.nameData = .error ∨ a.nameData = .bytes [])
    (hfd : 0 ≤ a.clientSocketFD)
    (hroom : w.acceptedSocketsCount < CAPACITY)
    (hmem : ∀ tr n, env.malloc tr n = true) :
    ∃ w' evs, acceptIteration env a w = .ok w' ∧
      w'.trace = w.trace ++ evs ∧
      sendsOf evs = [] ∧
      w'.peers = w.peers ++ [{ socketFD := a.clientSocketFD, address := a.clientAddress,
                               success := true, name := ascii "Unknown" }] ∧
      w'.acceptedSocketsCount = w.acceptedSocketsCount + 1 := by
  have hsucc : decide (a.clientSocketFD ≥ 0) = true := by simpa using hfd
  have hnot : ¬ ((recv a.nameData 99).1 > 0) := by
    rcases hfail with h | h <;> rw [h] <;> simp [recv]
  let s0 : AcceptedSocket := { socketFD := a.clientSocketFD, address := a.clientAddress,
                               success := true, name := ascii "Unknown" }
  obtain ⟨w2, g1, _, g3, g4, g5⟩ := registerClient_spec s0
    (emit w (.stdout (ascii "Failed receiving name.\n"))) hroom
  obtain ⟨thr, t1, t2, t3, t4⟩ := createClientThread_spec a.threadOk s0 w2
  refine ⟨createClientThread a.threadOk s0 w2,
    [Event.stdout (ascii "Failed receiving name.\n")] ++ [Event.lock, Event.unlock] ++ thr,
    ?_, ?_, ?_, ?_, ?_⟩
  · simp only [acceptIteration, acceptConnection, hmem, if_true]
    rw [if_neg hnot, hsucc]
    simp only [if_true]
    rw [g1]
  · rw [t1, g5]; simp [emit]
  · rw [sendsOf_append, t2]; simp [sendsOf]
  · rw [peers_congr _ w2 t3 t4, g4]; rfl
  · rw [t4, g3]; rfl

/-- Worked instance of C5: with Alice registered, a connection on descriptor 5 whose name
read fails. -/
theorem C5_unnamed_is_registered_witness :
    ∃ w' evs, acceptIteration envOk ⟨5, ⟨2, 50002, 2130706433⟩, .error, true⟩
        (worldOf [alice]) = .ok w' ∧
      w'.trace = (worldOf [alice]).trace ++ evs ∧
      sendsOf evs = [] ∧
      w'.peers = (worldOf [alice]).peers ++
        [{ socketFD := 5, address := ⟨2, 50002, 2130706433⟩, success := true,
           name := ascii "Unknown" }] ∧
      w'.acceptedSocketsCount = (worldOf [alice]).acceptedSocketsCount + 1 :=
  C5_unnamed_is_registered envOk (worldOf [alice])
    ⟨5, ⟨2, 50002, 2130706433⟩, .error, true⟩ (Or.inl rfl) (by decide) (by decide)
    (fun _ _ => rfl)

/-- C6 as stated fails: with Alice, Bob and Carol registered, when the read on Alice's
connection returns an error her session ends without any `send`: Bob and Carol are sent
nothing. The calls made are `perror`, `close(4)` and the locked removal. -/
theorem C6_counterexample :
    (worldOf [alice, bob, carol]).peers = [alice, bob, carol] ∧
    (receiveData envOk alice [.error] (worldOf [alice, bob, carol])).map
        (fun o => o.map (fun w => (sendsOf w.trace, w.trace)))
      = .ok (some ([], [Event.perror (ascii "recv failed"), Event.close 4,
                        Event.lock, Event.unlock])) := by
  decide

/-- C6, as the code has it. Take a session of `peer` that has handled the reads `msgs` and
is back in `recv` in world `w1`, where the table fits the array. When the next read returns
an error, `receiveData` returns having made, after the calls up to `w1`, exactly the calls
`perror("recv failed")`, `close`, `lock`, `unlock`: nothing is sent to any peer. When in
addition the table has pairwise distinct descriptors and holds `peer`, the cleanup is the
same as on a graceful close: afterwards no registered entry carries the descriptor of
`peer`, the count is one lower, and the registered entries are the former ones without the
peer, up to order. -/
theorem C6_read_error_is_silent (env : Env) (w w1 : World) (peer : AcceptedSocket)
    (msgs rest : List Incoming)
    (hloop : receiveLoop env peer msgs w = .ok (w1, false))
    (hcap : w1.acceptedSocketsCount ≤ CAPACITY) :
    ∃ w', receiveData env peer (msgs ++ .error :: rest) w = .ok (some w') ∧
      w'.trace = w1.trace ++ [Event.perror (ascii "recv failed"), Event.close peer.socketFD,
        Event.lock, Event.unlock] ∧
      sendsOf [Event.perror (ascii "recv failed"), Event.close peer.socketFD,
        Event.lock, Event.unlock] = [] ∧
      (w1.fds.Nodup → peer ∈ w1.peers →
        (∀ e ∈ w'.peers, e.socketFD ≠ peer.socketFD) ∧
        w'.acceptedSocketsCount + 1 = w1.acceptedSocketsCount ∧
        w'.peers.Perm (w1.peers.filter (fun e => decide (e.socketFD ≠ peer.socketFD)))) := by
  have hp1 : (emit (emit w1 (.perror (ascii "recv failed"))) (.close peer.socketFD)).peers
      = w1.peers := rfl
  have hf1 : (emit (emit w1 (.perror (ascii "recv failed"))) (.close peer.socketFD)).fds
      = w1.fds := rfl
  obtain ⟨w3, found, r1, r4⟩ := removeClient_total peer.socketFD
    (emit (emit w1 (.perror (ascii "recv failed"))) (.close peer.socketFD)) hcap
  refine ⟨w3, ?_, ?_, rfl, ?_⟩
  · have hrecv : recv .error 1023 = (-1, []) := rfl
    simp only [receiveData]
    rw [receiveLoop_append env peer msgs (.error :: rest) w w1 hloop]
    simp [receiveLoop, receiveIteration, hrecv, r1]
  · rw [r4]; simp [emit]
  · intro hdistinct hreg
    obtain ⟨w4, q1, q2, q3, _⟩ := removeClient_registered peer.socketFD
      (emit (emit w1 (.perror (ascii "recv failed"))) (.close peer.socketFD)) hcap
      (by rw [hf1]; exact hdistinct)
      (by rw [hf1]; exact List.mem_map.2 ⟨peer, hreg, rfl⟩)
    rw [r1] at q1
    injection q1 with q1
    injection q1 with q1 _
    subst q1
    rw [hp1] at q3
    refine ⟨?_, q2, q3⟩
    intro e he
    have := (q3.mem_iff).1 he
    simpa using (List.mem_filter.1 this).2

/-- Worked instance of C6: Alice, Bob and Carol are registered; Alice's session relays
`"hi"` and then the read on her connection fails. -/
theorem C6_read_error_is_silent_witness :
    ∃ w', receiveData envOk alice ([.bytes (ascii "hi")] ++ .error :: [])
        (worldOf [alice, bob, carol]) = .ok (some w') ∧
      w'.trace = afterHi.trace ++
        [Event.perror (ascii "recv failed"), Event.close alice.socketFD,
        Event.lock, Event.unlock] ∧
      sendsOf [Event.perror (ascii "recv failed"), Event.close alice.socketFD,
        Event.lock, Event.unlock] = [] ∧
      (afterHi.fds.Nodup → alice ∈ afterHi.peers →
        (∀ e ∈ w'.peers, e.socketFD ≠ alice.socketFD) ∧
        w'.acceptedSocketsCount + 1 = afterHi.acceptedSocketsCount ∧
        w'.peers.Perm (afterHi.peers.filter
          (fun e => decide (e.socketFD ≠ alice.socketFD)))) :=
  C6_read_error_is_silent envOk (worldOf [alice, bob, carol]) afterHi alice
    [.bytes (ascii "hi")] [] (by decide) (by decide)

/-- The run behind the worked instance of C6, evaluated: Bob and Carol get Alice's `"hi"`
and nothing after it, and the table then holds Carol and Bob. -/
theorem read_error_run :
    (receiveData envOk alice [.bytes (ascii "hi"), .error]
        (worldOf [alice, bob, carol])).map
        (fun o => o.map (fun w => (sendsOf w.trace, w.peers)))
      = .ok (some ([(5, ascii "Alice: hi\n"), (6, ascii "Alice: hi\n")], [carol, bob])) := by
  decide

/-- C7 as stated fails on a reachable state: after ten connections (descriptors 4 to 13)
have been accepted from program start, the count is 10, and accepting one more writes
`acceptedSockets[10]`, an index outside the 10-slot array. -/
theorem C7_counterexample :
    (startAcceptingConnections envOk tenArrivals World.initial).map
        (fun w => w.acceptedSocketsCount) = .ok 10 ∧
    startAcceptingConnections envOk
        (tenArrivals ++ [⟨14, ⟨2, 50011, 2130706433⟩, .bytes (ascii "A"), true⟩])
        World.initial
      = .error (.outOfBounds 10) ∧
    ¬ (10 < CAPACITY) := by
  decide

/-- C7, as the code has it. The table is an array of 10 slots. With fewer than 10 peers
registered, registering one more returns and stores the new entry at index
`acceptedSocketsCount`, which is inside the array, and raises the count by one. With at most
10 peers registered, every index the broadcast loop and the removal loop read or write is
inside the array: the broadcast never stops on an index outside the array and returns
whenever no `send` raises `SIGPIPE`, and the removal returns. -/
theorem C7_bounded_table (env : Env) (message : List Byte) (sender clientSocket : AcceptedSocket)
    (fd : Int) (w : World) :
    (w.acceptedSocketsCount < CAPACITY →
      ∃ w', registerClient clientSocket w = .ok w' ∧
        w.acceptedSocketsCount < w'.acceptedSockets.val.length ∧
        w'.acceptedSockets.val[w.acceptedSocketsCount]? = some clientSocket ∧
        w'.acceptedSocketsCount = w.acceptedSocketsCount + 1) ∧
    (w.acceptedSocketsCount ≤ CAPACITY →
      (∀ i, sendMsgToOthers env message sender w ≠ .error (.outOfBounds i)) ∧
      ((∀ tr, env.sendOutcome tr ≠ .sigpipe) →
        ∃ w', sendMsgToOthers env message sender w = .ok w') ∧
      (∃ w' found, removeClient fd w = .ok (w', found))) := by
  constructor
  · intro hroom
    obtain ⟨w', g1, g2, g3, _, _⟩ := registerClient_spec clientSocket w hroom
    refine ⟨w', g1, ?_, g2, g3⟩
    rw [w'.acceptedSockets.property]; exact hroom
  · intro hcap
    obtain ⟨w2, found, b1, _⟩ := removeClient_total fd w hcap
    refine ⟨?_, ?_, ⟨w2, found, b1⟩⟩
    · intro i hi
      rcases sendMsgToOthers_cases env message sender w hcap with
        ⟨w1, _, a1, _⟩ | ⟨evs, _, a1, _⟩
      · rw [a1] at hi; cases hi
      · rw [a1] at hi; cases hi
    · intro hret
      obtain ⟨w1, _, a1, _⟩ := sendMsgToOthers_spec env message sender w hcap hret
      exact ⟨w1, a1⟩

/-- Worked instance of C7: a table holding Alice and Bob; Carol is registered, Bob
broadcasts, descriptor 4 is removed. -/
theorem C7_bounded_table_witness :
    (∃ w', registerClient carol (worldOf [alice, bob]) = .ok w' ∧
        (worldOf [alice, bob]).acceptedSocketsCount < w'.acceptedSockets.val.length ∧
        w'.acceptedSockets.val[(worldOf [alice, bob]).acceptedSocketsCount]? = some carol ∧
        w'.acceptedSocketsCount = (worldOf [alice, bob]).acceptedSocketsCount + 1) ∧
    ((∀ i, sendMsgToOthers envOk (ascii "x") bob (worldOf [alice, bob])
        ≠ .error (.outOfBounds i)) ∧
      (∃ w', sendMsgToOthers envOk (ascii "x") bob (worldOf [alice, bob]) = .ok w') ∧
      (∃ w' found, removeClient 4 (worldOf [alice, bob]) = .ok (w', found))) :=
  ⟨(C7_bounded_table envOk (ascii "x") bob carol 4 (worldOf [alice, bob])).1 (by decide),
   ((C7_bounded_table envOk (ascii "x") bob carol 4 (worldOf [alice, bob])).2 (by decide)).1,
   ((C7_bounded_table envOk (ascii "x") bob carol 4 (worldOf [alice, bob])).2
      (by decide)).2.1 envOk_returns,
   ((C7_bounded_table envOk (ascii "x") bob carol 4 (worldOf [alice, bob])).2
      (by decide)).2.2⟩

/-- C8 as stated fails. Registering an entry whose descriptor 4 is already in the table
returns normally and leaves two entries with descriptor 4. Such a state is reached from
program start: a connection accepted on descriptor 4 whose thread cannot be created is
closed but stays registered, and the next connection accepted on descriptor 4 is appended
next to it. -/
theorem C8_counterexample :
    (registerClient { alice with name := ascii "Eve" } (worldOf [alice])).map
        (fun w => w.fds) = .ok [4, 4] ∧
    (startAcceptingConnections envOk
        [⟨4, ⟨2, 50001, 2130706433⟩, .bytes (ascii "Alice"), false⟩,
         ⟨4, ⟨2, 50002, 2130706433⟩, .bytes (ascii "Bob"), true⟩] World.initial).map
        (fun w => (w.fds, w.peers.map (fun e => e.name)))
      = .ok ([4, 4], [ascii "Alice", ascii "Bob"]) := by
  decide

/-- C8, as the code has it. Registration makes no check for a descriptor that is already
present: with room left it always returns, appends the new entry after the registered ones
and raises the count by one. The resulting table has pairwise distinct descriptors exactly
when the table before had and the new descriptor was not among them. -/
theorem C8_add_without_check (clientSocket : AcceptedSocket) (w : World)
    (hroom : w.acceptedSocketsCount < CAPACITY) :
    ∃ w', registerClient clientSocket w = .ok w' ∧
      w'.peers = w.peers ++ [clientSocket] ∧
      w'.acceptedSocketsCount = w.acceptedSocketsCount + 1 ∧
      (w'.fds.Nodup ↔ w.fds.Nodup ∧ clientSocket.socketFD ∉ w.fds) := by
  obtain ⟨w', g1, _, g3, g4, _⟩ := registerClient_spec clientSocket w hroom
  refine ⟨w', g1, g4, g3, ?_⟩
  simp only [World.fds, g4, List.map_append, List.map_cons, List.map_nil]
  rw [List.nodup_append]
  simp only [List.nodup_cons, List.not_mem_nil, not_false_eq_true, List.nodup_nil, and_self,
    true_and, List.disjoint_singleton]

/-- Worked instance of C8: Bob is registered after Alice. -/
theorem C8_add_without_check_witness :
    ∃ w', registerClient bob (worldOf [alice]) = .ok w' ∧
      w'.peers = (worldOf [alice]).peers ++ [bob] ∧
      w'.acceptedSocketsCount = (worldOf [alice]).acceptedSocketsCount + 1 ∧
      (w'.fds.Nodup ↔ (worldOf [alice]).fds.Nodup ∧ bob.socketFD ∉ (worldOf [alice]).fds) :=
  C8_add_without_check bob (worldOf [alice]) (by decide)

/-- C10 as stated fails: with Alice and Bob registered, a broadcast on behalf of Bob makes
the calls `lock`, `send` to descriptor 4, `unlock`, in this order; the `send` happens while
`socketsMutex` is held. -/
theorem C10_counterexample :
    (sendMsgToOthers envOk (ascii "x") bob (worldOf [alice, bob])).map
        (fun w => (w.trace, noSendWhileLocked false w.trace))
      = .ok ([Event.lock, Event.send 4 (ascii "x") (.returned 1), Event.unlock], false) := by
  decide

/-- C10, as the code has it. On a table that fits the array, broadcast, removal and
registration each take `socketsMutex` once and release it at the end. The broadcast makes
all its `send` calls, one per registered peer with another descriptor, between its `lock`
and its `unlock`, so every `send` happens while the mutex is held; no snapshot is taken.
This holds for every way the `send` calls end: a broadcast cut short by `SIGPIPE` has made
`lock` and then only `send` calls, to an initial stretch of those peers, all with the mutex
held; when no `send` raises `SIGPIPE` the broadcast returns. Removal and registration make
no call between `lock` and `unlock`. -/
theorem C10_sends_under_lock (env : Env) (message : List Byte)
    (sender clientSocket : AcceptedSocket) (fd : Int) (w : World)
    (hcap : w.acceptedSocketsCount ≤ CAPACITY) :
    ((∃ w' evs, sendMsgToOthers env message sender w = .ok w' ∧
        w'.trace = w.trace ++ [Event.lock] ++ evs ++ [Event.unlock] ∧
        (∀ e ∈ evs, e.isSend = true) ∧
        sendsOf evs
          = (w.peers.filter (fun p => decide (p.socketFD ≠ sender.socketFD))).map
              (fun p => (p.socketFD, cstr message)) ∧
        allSendsWhileLocked false ([Event.lock] ++ evs ++ [Event.unlock]) = true) ∨
      (∃ evs k, sendMsgToOthers env message sender w
          = .error (.sigpipe (w.trace ++ [Event.lock] ++ evs)) ∧
        (∀ e ∈ evs, e.isSend = true) ∧
        sendsOf evs
          = ((w.peers.filter (fun p => decide (p.socketFD ≠ sender.socketFD))).map
              (fun p => (p.socketFD, cstr message))).take (k + 1) ∧
        allSendsWhileLocked false ([Event.lock] ++ evs) = true)) ∧
    ((∀ tr, env.sendOutcome tr ≠ .sigpipe) →
      ∃ w' evs, sendMsgToOthers env message sender w = .ok w' ∧
        w'.trace = w.trace ++ [Event.lock] ++ evs ++ [Event.unlock] ∧
        (∀ e ∈ evs, e.isSend = true) ∧
        sendsOf evs
          = (w.peers.filter (fun p => decide (p.socketFD ≠ sender.socketFD))).map
              (fun p => (p.socketFD, cstr message)) ∧
        allSendsWhileLocked false ([Event.lock] ++ evs ++ [Event.unlock]) = true) ∧
    (∃ w' found, removeClient fd w = .ok (w', found) ∧
      w'.trace = w.trace ++ [Event.lock, Event.unlock]) ∧
    (w.acceptedSocketsCount < CAPACITY →
      ∃ w', registerClient clientSocket w = .ok w' ∧
        w'.trace = w.trace ++ [Event.lock, Event.unlock]) := by
  have hlocked : ∀ evs : List Event, (∀ e ∈ evs, e.isSend = true) →
      allSendsWhileLocked false ([Event.lock] ++ evs ++ [Event.unlock]) = true := by
    intro evs a5
    have h := allSendsWhileLocked_sends evs [Event.unlock] a5
    rw [List.append_assoc, List.singleton_append]
    simp only [allSendsWhileLocked]
    rw [h]
    rfl
  have hcut : ∀ evs : List Event, (∀ e ∈ evs, e.isSend = true) →
      allSendsWhileLocked false ([Event.lock] ++ evs) = true := by
    intro evs a5
    have h := allSendsWhileLocked_sends evs [] a5
    rw [List.singleton_append]
    simp only [allSendsWhileLocked]
    rw [List.append_nil] at h
    rw [h]
    rfl
  refine ⟨?_, ?_, removeClient_total fd w hcap, ?_⟩
  · rcases sendMsgToOthers_cases env message sender w hcap with
      ⟨w', evs, a1, _, _, a4, a5, a6⟩ | ⟨evs, k, a1, a5, a6, _⟩
    · exact Or.inl ⟨w', evs, a1, a4, a5, by rw [a6, recipients], hlocked evs a5⟩
    · exact Or.inr ⟨evs, k, a1, a5, by rw [a6, recipients], hcut evs a5⟩
  · intro hret
    obtain ⟨w', evs, a1, _, _, a4, a5, a6⟩ :=
      sendMsgToOthers_spec env message sender w hcap hret
    exact ⟨w', evs, a1, a4, a5, by rw [a6, recipients], hlocked evs a5⟩
  · intro hroom
    obtain ⟨w', g1, _, _, _, g5⟩ := registerClient_spec clientSocket w hroom
    exact ⟨w', g1, g5⟩

/-- Worked instance of C10: a table holding Alice and Bob; Bob broadcasts, descriptor 4 is
removed, Carol is registered. -/
theorem C10_sends_under_lock_witness :
    ((∃ w' evs, sendMsgToOthers envOk (ascii "x") bob (worldOf [alice, bob]) = .ok w' ∧
        w'.trace = (worldOf [alice, bob]).trace ++ [Event.lock] ++ evs ++ [Event.unlock] ∧
        (∀ e ∈ evs, e.isSend = true) ∧
        sendsOf evs
          = ((worldOf [alice, bob]).peers.filter
              (fun p => decide (p.socketFD ≠ bob.socketFD))).map
              (fun p => (p.socketFD, cstr (ascii "x"))) ∧
        allSendsWhileLocked false ([Event.lock] ++ evs ++ [Event.unlock]) = true) ∨
      (∃ evs k, sendMsgToOthers envOk (ascii "x") bob (worldOf [alice, bob])
          = .error (.sigpipe ((worldOf [alice, bob]).trace ++ [Event.lock] ++ evs)) ∧
        (∀ e ∈ evs, e.isSend = true) ∧
        sendsOf evs
          = (((worldOf [alice, bob]).peers.filter
              (fun p => decide (p.socketFD ≠ bob.socketFD))).map
              (fun p => (p.socketFD, cstr (ascii "x")))).take (k + 1) ∧
        allSendsWhileLocked false ([Event.lock] ++ evs) = true)) ∧
    ((∀ tr, envOk.sendOutcome tr ≠ .sigpipe) →
      ∃ w' evs, sendMsgToOthers envOk (ascii "x") bob (worldOf [alice, bob]) = .ok w' ∧
        w'.trace = (worldOf [alice, bob]).trace ++ [Event.lock] ++ evs ++ [Event.unlock] ∧
        (∀ e ∈ evs, e.isSend = true) ∧
        sendsOf evs
          = ((worldOf [alice, bob]).peers.filter
              (fun p => decide (p.socketFD ≠ bob.socketFD))).map
              (fun p => (p.socketFD, cstr (ascii "x"))) ∧
        allSendsWhileLocked false ([Event.lock] ++ evs ++ [Event.unlock]) = true) ∧
    (∃ w' found, removeClient 4 (worldOf [alice, bob]) = .ok (w', found) ∧
      w'.trace = (worldOf [alice, bob]).trace ++ [Event.lock, Event.unlock]) ∧
    ((worldOf [alice, bob]).acceptedSocketsCount < CAPACITY →
      ∃ w', registerClient carol (worldOf [alice, bob]) = .ok w' ∧
        w'.trace = (worldOf [alice, bob]).trace ++ [Event.lock, Event.unlock]) :=
  C10_sends_under_lock envOk (ascii "x") bob carol 4 (worldOf [alice, bob]) (by decide)

/-- A broadcast cut short, evaluated: with Alice, Carol and Bob registered and the `send`
to Alice raising `SIGPIPE`, the calls made are `lock` and that `send`; the mutex is never
released. -/
theorem broadcast_cut_short_run :
    sendMsgToOthers envFirstSendSigpipe (ascii "x") bob (worldOf [alice, carol, bob])
      = .error (.sigpipe [Event.lock, Event.send 4 (ascii "x") .sigpipe]) := by
  decide

end GroupChat
